import Mathlib

/-!
# Verification of the style-analysis pipeline (`backend/style_analyzer.py`)

A shallow embedding of the deterministic style-analysis core: the
tokenizer/segmenter, the six metric extractors, the phrase/lexeme miners,
the qualitative describers and the `analyze` orchestrator, together with
proofs settling the specification claims about them.

Modelling conventions:
* Text is a `List Char`; the Python `str` API is rendered char-list wise.
* Regex character classes `\w`, `\s`, `\d`, `[A-Z]` are modelled at their
  ASCII meaning (the corpora the analyzer documents are English text).
* Python floats are modelled by `ℚ` with exact arithmetic; `round(x, d)`
  becomes half-even rounding on `ℚ`.  `np.std` returns a square root that
  is not rational, so the profile stores the (population) variance
  `sentence_length_std_sq` — the square of the source's
  `sentence_length_std` before rounding; every threshold comparison the
  source makes against a standard deviation is rendered by the equivalent
  squared comparison.
-/

/-! ## Character classes (ASCII readings of `\s`, `\w`, `\d`, `[A-Z]`, `[.!?]`) -/

/-- Python `\s` (ASCII): space, tab, newline, carriage return, vertical tab, form feed. -/
def isSpaceChar (c : Char) : Bool :=
  c = ' ' || c = '\t' || c = '\n' || c = '\r' || c = '\x0b' || c = '\x0c'

/-- Python `\w` (ASCII): letters, digits, underscore. -/
def isWordChar (c : Char) : Bool :=
  c.isAlphanum || c = '_'

/-- Sentence-terminal punctuation `[.!?]`. -/
def isTerminalChar (c : Char) : Bool :=
  c = '.' || c = '!' || c = '?'

/-- The lookahead class `[A-Z"\']` used by the sentence splitter. -/
def isSentStartChar (c : Char) : Bool :=
  c.isUpper || c = '"' || c = '\''

/-- Bullet marker characters `[-•*]`. -/
def isBulletChar (c : Char) : Bool :=
  c = '-' || c = '•' || c = '*'

/-- ASCII lower-casing of one character (`str.lower`, restricted to `A`-`Z`). -/
def lowerChar (c : Char) : Char :=
  match c with
  | 'A' => 'a' | 'B' => 'b' | 'C' => 'c' | 'D' => 'd' | 'E' => 'e' | 'F' => 'f'
  | 'G' => 'g' | 'H' => 'h' | 'I' => 'i' | 'J' => 'j' | 'K' => 'k' | 'L' => 'l'
  | 'M' => 'm' | 'N' => 'n' | 'O' => 'o' | 'P' => 'p' | 'Q' => 'q' | 'R' => 'r'
  | 'S' => 's' | 'T' => 't' | 'U' => 'u' | 'V' => 'v' | 'W' => 'w' | 'X' => 'x'
  | 'Y' => 'y' | 'Z' => 'z'
  | c => c

/-! ## `str.strip` and whitespace normalization -/

/-- `str.lstrip()`: drop leading whitespace. -/
def lstripChars (l : List Char) : List Char :=
  l.dropWhile isSpaceChar

/-- `str.rstrip()`: drop trailing whitespace. -/
def rstripChars (l : List Char) : List Char :=
  (l.reverse.dropWhile isSpaceChar).reverse

/-- `str.strip()`. -/
def stripChars (l : List Char) : List Char :=
  lstripChars (rstripChars l)

/-- `re.sub(r'\s+', ' ', text)`: collapse every whitespace run to a single space. -/
def collapseWs : List Char → List Char
  | [] => []
  | [c] => [if isSpaceChar c then ' ' else c]
  | c :: d :: rest =>
    if isSpaceChar c && isSpaceChar d then collapseWs (d :: rest)
    else (if isSpaceChar c then ' ' else c) :: collapseWs (d :: rest)

/-- `re.sub(r'\s+', ' ', text).strip()` — the normalization step of `split_sentences`. -/
def normalizeWs (l : List Char) : List Char :=
  stripChars (collapseWs l)

/-! ## Word tokenization (`re.findall(r'\b\w+\b', text)`) -/

/-- Accumulating scanner for maximal `\w+` runs; `cur` holds the current
run reversed. -/
def tokWordsAux : List Char → List Char → List (List Char)
  | cur, [] => if cur.isEmpty then [] else [cur.reverse]
  | cur, c :: rest =>
    if isWordChar c then tokWordsAux (c :: cur) rest
    else if cur.isEmpty then tokWordsAux [] rest
    else cur.reverse :: tokWordsAux [] rest

/-- `re.findall(r'\b\w+\b', text)`: the maximal word-character runs, in order. -/
def tokenizeWords (t : List Char) : List (List Char) :=
  tokWordsAux [] t

/-- `count_words`: number of `\b\w+\b` matches. -/
def count_words (t : List Char) : Nat :=
  (tokenizeWords t).length

/-- `get_words`: all words, lowercased. -/
def get_words (t : List Char) : List (List Char) :=
  (tokenizeWords t).map (List.map lowerChar)

/-- `str.split()` (no separator): maximal runs of non-whitespace. -/
def splitWsAux : List Char → List Char → List (List Char)
  | cur, [] => if cur.isEmpty then [] else [cur.reverse]
  | cur, c :: rest =>
    if isSpaceChar c then
      if cur.isEmpty then splitWsAux [] rest
      else cur.reverse :: splitWsAux [] rest
    else splitWsAux (c :: cur) rest

/-- `str.split()` on a sentence, used by `extract_sentence_starters`. -/
def splitWs (t : List Char) : List (List Char) :=
  splitWsAux [] t

/-! ## Sentence splitting (`split_sentences`) -/

/-- Scanner for `re.split(r'(?<=[.!?])\s+(?=[A-Z"\'])|(?<=[.!?])$', text)` on
whitespace-normalized text (whitespace runs are single spaces, so `\s+`
matches exactly one space).  `cur` is the current fragment, reversed; a split
consumes the space when the previous char is terminal and the next char is an
uppercase letter or a quote.  The zero-width `$` branch of the source's regex
only ever adds an empty trailing fragment, which the caller filters out. -/
def sentSplitAux : List Char → List Char → List (List Char)
  | cur, [] => [cur.reverse]
  | cur, c :: rest =>
    match cur, rest with
    | p :: _, d :: _ =>
      if isSpaceChar c && isTerminalChar p && isSentStartChar d then
        cur.reverse :: sentSplitAux [] rest
      else sentSplitAux (c :: cur) rest
    | _, _ => sentSplitAux (c :: cur) rest

/-- `split_sentences`: normalize whitespace, split on sentence boundaries,
strip the fragments and keep those of stripped length `> 1`. -/
def split_sentences (t : List Char) : List (List Char) :=
  ((sentSplitAux [] (normalizeWs t)).map stripChars).filter (fun s => 1 < s.length)

/-! ## Paragraph splitting (`split_paragraphs`) -/

/-- Index of the last `'\n'` in a list, if any. -/
def lastNlIdx : List Char → Option Nat
  | [] => none
  | c :: rest =>
    match lastNlIdx rest with
    | some k => some (k + 1)
    | none => if c = '\n' then some 0 else none

/-- Scanner for `re.split(r'\n\s*\n|\n(?=\s*[-•*])', text)`.
At a `'\n'`, with `run` the maximal whitespace run that follows it:
if `run` contains another newline the first (greedy) branch matches up to the
last newline of the run and everything matched is consumed; otherwise, if the
run is followed by a bullet character, the lookahead branch consumes just the
newline.  The scanner is fueled (one unit per consumed character); callers
pass `length + 1` fuel, which is never exhausted. -/
def paraSplitAux : Nat → List Char → List Char → List (List Char)
  | 0, cur, rest => [cur.reverse ++ rest]
  | _ + 1, cur, [] => [cur.reverse]
  | fuel + 1, cur, c :: rest =>
    if c = '\n' then
      match lastNlIdx (rest.takeWhile isSpaceChar) with
      | some k => cur.reverse :: paraSplitAux fuel [] (rest.drop (k + 1))
      | none =>
        match (rest.dropWhile isSpaceChar).head? with
        | some b =>
          if isBulletChar b then cur.reverse :: paraSplitAux fuel [] rest
          else paraSplitAux fuel ('\n' :: cur) rest
        | none => paraSplitAux fuel ('\n' :: cur) rest
    else paraSplitAux fuel (c :: cur) rest

/-- `split_paragraphs`: split, strip the fragments, drop the empty ones. -/
def split_paragraphs (t : List Char) : List (List Char) :=
  ((paraSplitAux (t.length + 1) [] t).map stripChars).filter (fun p => !p.isEmpty)

/-! ## `str.split('\n')` — keeps empty pieces, used for bullet-line counting -/

def splitOnNl : List Char → List (List Char)
  | [] => [[]]
  | c :: rest =>
    match splitOnNl rest, decide (c = '\n') with
    | r, true => [] :: r
    | [], false => [[c]]
    | h :: r, false => (c :: h) :: r

/-! ## Counters (`collections.Counter`) and `most_common` -/

/-- Add one occurrence of `x` to a count list, preserving first-occurrence order
(`Counter` dict semantics). -/
def bumpCount [DecidableEq α] (x : α) : List (α × Nat) → List (α × Nat)
  | [] => [(x, 1)]
  | (y, c) :: rest => if x = y then (y, c + 1) :: rest else (y, c) :: bumpCount x rest

/-- `Counter(l)` as an association list in first-occurrence order. -/
def countOcc [DecidableEq α] (l : List α) : List (α × Nat) :=
  l.foldl (fun acc x => bumpCount x acc) []

/-- Stable insertion by strictly larger count: the new element goes after every
existing element of count `≥` its own. -/
def insertCountDesc (p : α × Nat) : List (α × Nat) → List (α × Nat)
  | [] => [p]
  | q :: qs => if q.2 < p.2 then p :: q :: qs else q :: insertCountDesc p qs

/-- Stable sort by descending count (`sorted(..., key=count, reverse=True)`,
which Python guarantees to be stable). -/
def sortCountDesc (l : List (α × Nat)) : List (α × Nat) :=
  l.foldl (fun acc p => insertCountDesc p acc) []

/-- `Counter.most_common(n)`: the `n` highest-count entries, descending,
ties in first-occurrence order. -/
def most_common (n : Nat) (l : List (α × Nat)) : List (α × Nat) :=
  (sortCountDesc l).take n

/-! ## n-grams -/

/-- `extract_ngrams(words, n)`: all contiguous windows of length `n`. -/
def extract_ngrams (n : Nat) : List α → List (List α)
  | [] => []
  | w :: rest =>
    if n ≤ (w :: rest).length then (w :: rest).take n :: extract_ngrams n rest
    else []

/-! ## Fixed vocabularies (module-level constant tables of the source) -/

/-- `COMMON_WORDS` (the stop-word set; duplicates of the source literal kept —
only membership is ever used). -/
def COMMON_WORDS : List (List Char) :=
  ([ "the", "a", "an", "is", "are", "was", "were", "be", "been", "being",
     "have", "has", "had", "do", "does", "did", "will", "would", "could",
     "should", "may", "might", "shall", "can", "need", "dare", "ought",
     "used", "to", "of", "in", "for", "on", "with", "at", "by", "from",
     "as", "into", "through", "during", "before", "after", "above", "below",
     "between", "out", "off", "over", "under", "again", "further", "then",
     "once", "here", "there", "when", "where", "why", "how", "all", "both",
     "each", "few", "more", "most", "other", "some", "such", "no", "nor",
     "not", "only", "own", "same", "so", "than", "too", "very", "just",
     "don", "should", "now", "and", "but", "or", "if", "while", "that",
     "this", "these", "those", "it", "its", "i", "me", "my", "myself",
     "we", "our", "ours", "you", "your", "yours", "he", "him", "his",
     "she", "her", "hers", "they", "them", "their", "what", "which",
     "who", "whom", "about", "up", "like", "get", "got", "make", "go",
     "going", "know", "think", "see", "come", "want", "look", "use",
     "find", "give", "tell", "say", "said", "also", "well", "back",
     "even", "still", "way", "take", "thing", "things", "much", "because",
     "good", "new", "first", "last", "long", "great", "little", "right",
     "old", "big", "high", "different", "small", "large", "next", "early",
     "young", "important", "people", "time", "year", "day", "man", "woman",
     "child", "world", "life", "hand", "part", "place", "case", "week",
     "company", "system", "program", "question", "work", "point", "number",
     "let", "something", "really", "many", "every", "one", "two", "three",
     "anything", "nothing", "everything", "someone", "anyone", "everyone",
     "been", "being", "am", "s", "t", "re", "ve", "ll", "d", "m",
     "don't", "doesn't", "didn't", "won't", "wouldn't", "couldn't",
     "shouldn't", "isn't", "aren't", "wasn't", "weren't", "haven't",
     "hasn't", "hadn't", "can't", "couldn't", "it's", "that's", "there's"
   ] : List String).map String.data

/-- The alternatives of the `CONTRACTIONS` regex, in source order. -/
def contractionPatterns : List (List Char) :=
  ([ "i'm", "i've", "i'll", "i'd", "you're", "you've", "you'll", "you'd",
     "he's", "she's", "it's",
     "we're", "we've", "we'll", "we'd", "they're", "they've", "they'll", "they'd",
     "that's", "there's", "here's", "what's", "who's", "how's", "where's", "when's",
     "isn't", "aren't", "wasn't", "weren't", "hasn't", "haven't", "hadn't",
     "doesn't", "don't", "didn't", "won't", "wouldn't", "shan't", "shouldn't",
     "can't", "couldn't", "mustn't", "let's", "gonna", "wanna", "gotta"
   ] : List String).map String.data

/-- `transition_candidates` of `extract_transition_words`, in source order. -/
def transition_candidates : List String :=
  [ "however", "but", "so", "and", "yet", "still", "also", "moreover",
    "furthermore", "meanwhile", "instead", "rather", "although", "though",
    "because", "since", "therefore", "thus", "hence", "consequently",
    "nevertheless", "nonetheless", "besides", "anyway", "actually",
    "basically", "honestly", "frankly", "literally", "obviously",
    "clearly", "simply", "essentially", "ultimately", "finally",
    "look", "listen", "here's the thing", "the truth is", "the point is",
    "in fact", "for example", "for instance" ]

/-- `generic_starters` of `extract_sentence_starters`. -/
def generic_starters : List (List Char) :=
  (["the", "a", "an", "it is", "there is", "there are"] : List String).map String.data

/-! ## The `CONTRACTIONS` regex (`len(CONTRACTIONS.findall(text.lower()))`) -/

/-- Character-wise prefix test for one alternative. -/
def matchesAt : List Char → List Char → Bool
  | [], _ => true
  | _ :: _, [] => false
  | p :: ps, c :: cs => p = c && matchesAt ps cs

/-- The trailing `\b` of the regex: every alternative ends in a word character,
so the character following the match (if any) must not be a word character. -/
def contrBoundaryAfter (pat t : List Char) : Bool :=
  match (t.drop pat.length).head? with
  | some c => !isWordChar c
  | none => true

/-- Try the alternatives at the current position, in regex order (with
backtracking, an alternative only succeeds if the trailing boundary holds).
Returns the matched length. -/
def contrTryMatch (t : List Char) : Option Nat :=
  (contractionPatterns.find? (fun pat => matchesAt pat t && contrBoundaryAfter pat t)).map
    List.length

/-- Fueled left-to-right scan counting non-overlapping `CONTRACTIONS` matches.
`prevW` says whether the previous character was a word character (the leading
`\b`: every alternative starts with a word character, so a match can only
begin after a non-word character or at the start).  After a match the previous
character is the alternative's last character, always a word character. -/
def contrCountAux : Nat → Bool → List Char → Nat
  | 0, _, _ => 0
  | _ + 1, _, [] => 0
  | fuel + 1, prevW, c :: rest =>
    if prevW then contrCountAux fuel (isWordChar c) rest
    else
      match contrTryMatch (c :: rest) with
      | some len => 1 + contrCountAux fuel true ((c :: rest).drop len)
      | none => contrCountAux fuel (isWordChar c) rest

/-- `len(CONTRACTIONS.findall(t))` for already-lowercased `t`. -/
def contraction_count (t : List Char) : Nat :=
  contrCountAux (t.length + 1) false t

/-! ## Emoji, ellipsis, dash and parenthetical counters -/

/-- Membership in the `EMOJI_PATTERN` character class (codepoint ranges of the
source, in order; the repeated range is kept). -/
def isEmojiChar (c : Char) : Bool :=
  let n := c.toNat
  (0x1F600 ≤ n && n ≤ 0x1F64F) || (0x1F300 ≤ n && n ≤ 0x1F5FF) ||
  (0x1F680 ≤ n && n ≤ 0x1F6FF) || (0x1F1E0 ≤ n && n ≤ 0x1F1FF) ||
  (0x2702 ≤ n && n ≤ 0x27B0) || (0x24C2 ≤ n && n ≤ 0x1F251) ||
  (0x1F900 ≤ n && n ≤ 0x1F9FF) || (0x1FA00 ≤ n && n ≤ 0x1FA6F) ||
  (0x1FA70 ≤ n && n ≤ 0x1FAFF) || (0x2702 ≤ n && n ≤ 0x27B0) ||
  n = 0x200D || n = 0xFE0F

/-- Number of maximal runs of characters satisfying `p` — the match count of
`[class]+` under `re.findall`.  `prev` says whether the previous character was
in the class. -/
def runCountP (p : Char → Bool) : Bool → List Char → Nat
  | _, [] => 0
  | prev, c :: rest =>
    if p c && !prev then 1 + runCountP p true rest
    else runCountP p (p c) rest

/-- `len(EMOJI_PATTERN.findall(t))`. -/
def emojiCount (t : List Char) : Nat :=
  runCountP isEmojiChar false t

/-- Lookahead for two further dots (the tail of a `\.{3}` match). -/
def twoDots? : List Char → Option (List Char)
  | '.' :: '.' :: rest2 => some rest2
  | _ => none

/-- Fueled scan for `re.findall(r'\.{3}|…', t)`: three dots (advance one
character on a shorter dot run) or a horizontal ellipsis. -/
def ellipsisCountAux : Nat → List Char → Nat
  | 0, _ => 0
  | _ + 1, [] => 0
  | fuel + 1, c :: rest =>
    if c = '…' then 1 + ellipsisCountAux fuel rest
    else if c = '.' then
      match twoDots? rest with
      | some rest2 => 1 + ellipsisCountAux fuel rest2
      | none => ellipsisCountAux fuel rest
    else ellipsisCountAux fuel rest

/-- `len(re.findall(r'\.{3}|…', t))`. -/
def ellipsisCount (t : List Char) : Nat :=
  ellipsisCountAux (t.length + 1) t

/-- The next two characters, if present (lookahead of the `\s-\s` branch). -/
def twoChars? : List Char → Option (Char × Char × List Char)
  | d :: b :: rest2 => some (d, b, rest2)
  | _ => none

/-- Fueled scan for `re.findall(r'[—–]|\s-\s', t)`. -/
def dashCountAux : Nat → List Char → Nat
  | 0, _ => 0
  | _ + 1, [] => 0
  | fuel + 1, c :: rest =>
    if c = '—' || c = '–' then 1 + dashCountAux fuel rest
    else
      match twoChars? rest with
      | some (d, b, rest2) =>
        if isSpaceChar c && d = '-' && isSpaceChar b then 1 + dashCountAux fuel rest2
        else dashCountAux fuel rest
      | none => dashCountAux fuel rest

/-- `len(re.findall(r'[—–]|\s-\s', t))`. -/
def dashCount (t : List Char) : Nat :=
  dashCountAux (t.length + 1) t

/-- State machine for `len(re.findall(r'\([^)]+\)', t))`: `some k` means an
open `(` was seen with `k` non-`)` characters after it.  A `)` closes a match
iff `k ≥ 1` (the `[^)]+` needs at least one character); a failed `(` — empty
interior or unclosed — contributes nothing, matching the regex engine's
one-character re-scan. -/
def parenCountAux : Option Nat → List Char → Nat
  | _, [] => 0
  | none, c :: rest =>
    if c = '(' then parenCountAux (some 0) rest else parenCountAux none rest
  | some k, c :: rest =>
    if c = ')' then
      if 1 ≤ k then 1 + parenCountAux none rest else parenCountAux none rest
    else parenCountAux (some (k + 1)) rest

/-- `len(re.findall(r'\([^)]+\)', t))`. -/
def parenCount (t : List Char) : Nat :=
  parenCountAux none t

/-! ## Bullet-line detection (`analyze_formatting`) -/

/-- `re.match(r'^\s*\d+[.)]\s', line)` for an already-stripped line. -/
def isNumberedMarker (s : List Char) : Bool :=
  let ds := s.takeWhile Char.isDigit
  !ds.isEmpty &&
    (match s.dropWhile Char.isDigit with
     | p :: sp :: _ => (p = '.' || p = ')') && isSpaceChar sp
     | _ => false)

/-- A line counts as a bullet line when its stripped form matches
`^\s*[-•*]\s` or `^\s*\d+[.)]\s` (after `strip` the `\s*` is vacuous). -/
def isBulletLine (line : List Char) : Bool :=
  let s := stripChars line
  (match s with
   | b :: sp :: _ => isBulletChar b && isSpaceChar sp
   | _ => false) || isNumberedMarker s

/-! ## Rounding and statistics (`round`, `np.mean`, `np.std`) -/

/-- Round-half-to-even on `ℚ` (Python's `round` on exact values). -/
def rhe (q : ℚ) : ℤ :=
  let f := ⌊q⌋
  let r := q - f
  if r < 1/2 then f
  else if 1/2 < r then f + 1
  else if f % 2 = 0 then f else f + 1

/-- `round(q, p)`. -/
def roundQ (p : ℕ) (q : ℚ) : ℚ :=
  ((rhe (q * (10 : ℚ) ^ p) : ℚ)) / (10 : ℚ) ^ p

/-- `np.mean` over natural-number data (0 on empty input, never reached by
callers, which guard emptiness). -/
def meanQ (l : List ℕ) : ℚ :=
  (l.sum : ℚ) / (l.length : ℚ)

/-- The population variance (`np.std(l) ** 2` — `np.std` uses `ddof=0`). -/
def varQ (l : List ℕ) : ℚ :=
  ((l.map (fun x => ((x : ℚ) - meanQ l) ^ 2)).sum) / (l.length : ℚ)

/-! ## The analyzer state (`StyleAnalyzer.__init__`) -/

/-- `"\n\n".join(samples)` — `self.combined_text`. -/
def joinSamples : List (List Char) → List Char
  | [] => []
  | [s] => s
  | s :: rest => s ++ '\n' :: '\n' :: joinSamples rest

/-- `self.combined_text`. -/
def combinedText (samples : List String) : List Char :=
  joinSamples (samples.map String.data)

/-- `self.all_sentences`. -/
def allSentences (samples : List String) : List (List Char) :=
  (samples.map (fun s => split_sentences s.data)).flatten

/-- `self.all_paragraphs`. -/
def allParagraphs (samples : List String) : List (List Char) :=
  (samples.map (fun s => split_paragraphs s.data)).flatten

/-- `self.all_words`. -/
def allWords (samples : List String) : List (List Char) :=
  (samples.map (fun s => get_words s.data)).flatten

/-! ## The six metric extractors -/

/-- Result of `analyze_sentence_structure`.  `sentence_length_std_sq` is the
square of the source's (unrounded) `sentence_length_std`; see the header. -/
structure SentenceStructureM where
  avg_sentence_length : ℚ
  sentence_length_std_sq : ℚ
  short_sentence_ratio : ℚ
  long_sentence_ratio : ℚ
deriving DecidableEq, Repr

/-- `analyze_sentence_structure`. -/
def analyze_sentence_structure (samples : List String) : SentenceStructureM :=
  let sents := allSentences samples
  if sents.isEmpty then ⟨0, 0, 0, 0⟩
  else
    let lengths := sents.map count_words
    { avg_sentence_length := roundQ 2 (meanQ lengths)
      sentence_length_std_sq := varQ lengths
      short_sentence_ratio := roundQ 3 ((lengths.countP (fun l => l ≤ 5) : ℚ) / (lengths.length : ℚ))
      long_sentence_ratio := roundQ 3 ((lengths.countP (fun l => 20 ≤ l) : ℚ) / (lengths.length : ℚ)) }

/-- Result of `analyze_questions_hooks`. -/
structure QuestionsM where
  question_ratio : ℚ
  exclamation_ratio : ℚ
deriving DecidableEq, Repr

/-- `s.rstrip().endswith(c)`. -/
def rstripEndsWith (s : List Char) (c : Char) : Bool :=
  (rstripChars s).getLast? = some c

/-- `analyze_questions_hooks`. -/
def analyze_questions_hooks (samples : List String) : QuestionsM :=
  let sents := allSentences samples
  if sents.isEmpty then ⟨0, 0⟩
  else
    { question_ratio :=
        roundQ 3 ((sents.countP (fun s => rstripEndsWith s '?') : ℚ) / (sents.length : ℚ))
      exclamation_ratio :=
        roundQ 3 ((sents.countP (fun s => rstripEndsWith s '!') : ℚ) / (sents.length : ℚ)) }

/-- Result of `analyze_formatting`. -/
structure FormattingM where
  avg_paragraph_length : ℚ
  uses_bullet_points : Bool
  bullet_frequency : ℚ
deriving DecidableEq, Repr

/-- `analyze_formatting`. -/
def analyze_formatting (samples : List String) : FormattingM :=
  let paras := allParagraphs samples
  if paras.isEmpty then ⟨0, false, 0⟩
  else
    let para_lengths := paras.map (fun p => (split_sentences p).length)
    let avg_para_len : ℚ := if para_lengths.isEmpty then 0 else meanQ para_lengths
    let lines := splitOnNl (combinedText samples)
    let bullet_lines := lines.countP isBulletLine
    { avg_paragraph_length := roundQ 2 avg_para_len
      uses_bullet_points := decide (0 < bullet_lines)
      bullet_frequency := roundQ 3 ((bullet_lines : ℚ) / (max lines.length 1 : ℕ)) }

/-- Result of `analyze_vocabulary`. -/
structure VocabularyM where
  vocabulary_richness : ℚ
  avg_word_length : ℚ
  contraction_ratio : ℚ
deriving DecidableEq, Repr

/-- `analyze_vocabulary`. -/
def analyze_vocabulary (samples : List String) : VocabularyM :=
  let words := allWords samples
  if words.isEmpty then ⟨0, 0, 0⟩
  else
    { vocabulary_richness := roundQ 3 ((words.dedup.length : ℚ) / (words.length : ℚ))
      avg_word_length := roundQ 2 (meanQ (words.map List.length))
      contraction_ratio :=
        roundQ 3 ((contraction_count ((combinedText samples).map lowerChar) : ℚ) /
          (max words.length 1 : ℕ)) }

/-- Result of `analyze_punctuation_emoji`. -/
structure PunctuationM where
  emoji_frequency : ℚ
  ellipsis_frequency : ℚ
  dash_frequency : ℚ
  parenthetical_frequency : ℚ
deriving DecidableEq, Repr

/-- `analyze_punctuation_emoji` (no empty-corpus branch: the totals are
clamped with `max(·, 1)`). -/
def analyze_punctuation_emoji (samples : List String) : PunctuationM :=
  let total_words : ℕ := max (allWords samples).length 1
  let total_sentences : ℕ := max (allSentences samples).length 1
  let t := combinedText samples
  { emoji_frequency := roundQ 3 (((emojiCount t : ℚ) / total_words) * 100)
    ellipsis_frequency := roundQ 3 (((ellipsisCount t : ℚ) / total_sentences) * 100)
    dash_frequency := roundQ 3 (((dashCount t : ℚ) / total_words) * 100)
    parenthetical_frequency := roundQ 3 (((parenCount t : ℚ) / total_sentences) * 100) }

/-- Result of `analyze_rhythm`. -/
structure RhythmM where
  opens_with_short_sentence : ℚ
  sentence_length_variation : String
deriving DecidableEq, Repr

/-- `analyze_rhythm`.  The source computes
`cv = np.std(lengths) / max(np.mean(lengths), 1)` and compares `cv > 0.7`,
`cv > 0.4`; since both sides are nonnegative this is equivalent to comparing
the variance against `0.49 m²` and `0.16 m²` with `m = max(mean, 1)`, which
is how it is rendered here (no square root in `ℚ`). -/
def analyze_rhythm (samples : List String) : RhythmM :=
  let paras := allParagraphs samples
  if paras.isEmpty then ⟨0, "low"⟩
  else
    let short_openers := paras.countP (fun para =>
      match split_sentences para with
      | s :: _ => count_words s ≤ 6
      | [] => false)
    let sents := allSentences samples
    let variation :=
      if 2 ≤ sents.length then
        let lengths := sents.map count_words
        -- `max(np.mean(lengths), 1)`, written with `if` so that it evaluates
        -- (the `Lattice`-derived `max` on `ℚ` does not reduce in the kernel)
        let m : ℚ := if meanQ lengths ≤ 1 then 1 else meanQ lengths
        if (49 : ℚ)/100 * m ^ 2 < varQ lengths then "high"
        else if (4 : ℚ)/25 * m ^ 2 < varQ lengths then "medium"
        else "low"
      else "low"
    { opens_with_short_sentence := roundQ 3 ((short_openers : ℚ) / (max paras.length 1 : ℕ))
      sentence_length_variation := variation }

/-! ## Phrase and lexeme miners -/

/-- `" ".join(words)`. -/
def joinWords : List (List Char) → List Char
  | [] => []
  | [w] => w
  | w :: rest => w ++ ' ' :: joinWords rest

/-- `all(w in COMMON_WORDS for w in gram)`. -/
def allStopWords (gram : List (List Char)) : Bool :=
  gram.all (fun w => decide (w ∈ COMMON_WORDS))

/-- The trigram loop of `extract_signature_phrases`: append each qualifying
trigram's phrase; `break` (inside the `if`) once `top_n // 2` phrases are
collected. -/
def triLoop (k : Nat) : List (List (List Char) × Nat) → List (List Char) → List (List Char)
  | [], acc => acc
  | (t, c) :: rest, acc =>
    if 2 ≤ c && !allStopWords t then
      let acc' := acc ++ [joinWords t]
      if k ≤ acc'.length then acc' else triLoop k rest acc'
    else triLoop k rest acc

/-- The `append an optional element, then break once `n` are collected`
loop shape shared by the bigram fill, `extract_vocabulary_preferences` and
`extract_sentence_starters` (their `break` check sits after the `if`). -/
def pushLoop (n : Nat) (f : β → List α → Option α) : List β → List α → List α
  | [], acc => acc
  | x :: rest, acc =>
    let acc' := match f x acc with
      | some a => acc ++ [a]
      | none => acc
    if n ≤ acc'.length then acc' else pushLoop n f rest acc'

/-- The bigram fill step: qualifying bigrams whose phrase is not already
present (by string equality — Python's `phrase not in phrases` on a list). -/
def bigramPush (bc : List (List Char) × Nat) (acc : List (List Char)) : Option (List Char) :=
  if 2 ≤ bc.2 && !allStopWords bc.1 then
    let phrase := joinWords bc.1
    if phrase ∈ acc then none else some phrase
  else none

/-- `extract_signature_phrases(top_n)`. -/
def extract_signature_phrases (samples : List String) (top_n : Nat) : List String :=
  let all_bigrams := (samples.map (fun s => extract_ngrams 2 (get_words s.data))).flatten
  let all_trigrams := (samples.map (fun s => extract_ngrams 3 (get_words s.data))).flatten
  let phrases1 := triLoop (top_n / 2) (most_common 50 (countOcc all_trigrams)) []
  let phrases2 := pushLoop top_n bigramPush (most_common 50 (countOcc all_bigrams)) phrases1
  (phrases2.take top_n).map (fun p => String.mk p)

/-- `word.isdigit()` (ASCII digits; false only on empty, which cannot occur
for tokens). -/
def isDigitWord (w : List Char) : Bool :=
  !w.isEmpty && w.all Char.isDigit

/-- The filter of `extract_vocabulary_preferences`. -/
def vocabPush (wc : List Char × Nat) (_acc : List (List Char)) : Option (List Char) :=
  if decide (wc.1 ∉ COMMON_WORDS) && 2 < wc.1.length && 2 ≤ wc.2 && !isDigitWord wc.1 then
    some wc.1
  else none

/-- `extract_vocabulary_preferences(top_n=15)`. -/
def extract_vocabulary_preferences (samples : List String) (top_n : Nat) : List String :=
  (pushLoop top_n vocabPush (most_common 200 (countOcc (allWords samples))) []).map
    (fun w => String.mk w)

/-- The per-sentence starter: the first one or two `str.split()` words,
joined and lowercased (`None` for a sentence with no words). -/
def starterOfSentence (s : List Char) : Option (List Char) :=
  match splitWs s with
  | w1 :: w2 :: _ => some ((w1 ++ ' ' :: w2).map lowerChar)
  | [w] => some (w.map lowerChar)
  | [] => none

/-- The filter of `extract_sentence_starters`. -/
def starterPush (sc : List Char × Nat) (_acc : List (List Char)) : Option (List Char) :=
  if 2 ≤ sc.2 && decide (sc.1 ∉ generic_starters) then some sc.1 else none

/-- `extract_sentence_starters(top_n=10)`. -/
def extract_sentence_starters (samples : List String) (top_n : Nat) : List String :=
  let starters := (allSentences samples).filterMap starterOfSentence
  (pushLoop top_n starterPush (most_common 30 (countOcc starters)) []).map
    (fun w => String.mk w)

/-- `extract_transition_words(top_n=10)`.  `Counter(all_words)` membership is
`word ∈ all_words`; its count is `all_words.count word`. -/
def extract_transition_words (samples : List String) (top_n : Nat) : List String :=
  let words := allWords samples
  let found := transition_candidates.filterMap (fun w =>
    if w.data ∈ words ∧ 1 ≤ words.count w.data then some (w.data, words.count w.data)
    else none)
  ((sortCountDesc found).take top_n).map (fun p => String.mk p.1)

/-! ## Qualitative describers -/

/-- `describe_formatting_style`. -/
def describe_formatting_style (samples : List String) : String :=
  let formatting := analyze_formatting samples
  let sentence_info := analyze_sentence_structure samples
  let parts : List String :=
    [if formatting.avg_paragraph_length ≤ 2 then "Uses very short paragraphs (1-2 sentences)"
     else if formatting.avg_paragraph_length ≤ 4 then "Uses moderate-length paragraphs (3-4 sentences)"
     else "Uses longer paragraphs (5+ sentences)"] ++
    [if formatting.uses_bullet_points then
       if (0.2 : ℚ) < formatting.bullet_frequency then "Heavy use of bullet points and lists"
       else "Occasional use of bullet points"
     else "Rarely or never uses bullet points"] ++
    (if (0.3 : ℚ) < sentence_info.short_sentence_ratio then
       ["Frequently uses punchy, short sentences for emphasis"] else []) ++
    (if (0.2 : ℚ) < sentence_info.long_sentence_ratio then
       ["Includes longer, detailed sentences"] else [])
  String.intercalate ". " parts ++ "."

/-- The greedy excerpt accumulator of `extract_sample_excerpts`: add each
sentence (plus a trailing space) while the current length plus the sentence
length stays within `max_length`; stop at the first overflow. -/
def excerptAcc (max_length : Nat) : List (List Char) → List Char → List Char
  | [], acc => acc
  | s :: rest, acc =>
    if acc.length + s.length ≤ max_length then excerptAcc max_length rest (acc ++ s ++ [' '])
    else acc

/-- One sample's excerpt, if any: the greedy accumulation of its first three
sentences, stripped; `none` when the sample has no sentences or the stripped
accumulation is empty. -/
def excerptOfSample (max_length : Nat) (s : List Char) : Option (List Char) :=
  match split_sentences s with
  | [] => none
  | sents =>
    let e := stripChars (excerptAcc max_length (sents.take 3) [])
    if e.isEmpty then none else some e

/-- `extract_sample_excerpts(count=5, max_length=200)`. -/
def extract_sample_excerpts (samples : List String) (count max_length : Nat) : List String :=
  (((samples.map String.data).filterMap (excerptOfSample max_length)).take count).map
    (fun e => String.mk e)

/-- `generate_style_summary`. -/
def generate_style_summary (samples : List String) : String :=
  let metrics_sent := analyze_sentence_structure samples
  let metrics_q := analyze_questions_hooks samples
  let metrics_fmt := analyze_formatting samples
  let metrics_vocab := analyze_vocabulary samples
  let metrics_punct := analyze_punctuation_emoji samples
  let metrics_rhythm := analyze_rhythm samples
  let summary_parts : List String :=
    [if metrics_sent.avg_sentence_length < 10 then "This writer uses notably short, punchy sentences"
     else if metrics_sent.avg_sentence_length < 15 then "This writer uses moderate-length sentences"
     else "This writer tends toward longer, more detailed sentences"] ++
    [if metrics_rhythm.sentence_length_variation = "high" then
       "with high variation between short and long sentences, creating a dynamic rhythm"
     else if metrics_rhythm.sentence_length_variation = "medium" then
       "with moderate variation in sentence length"
     else "with consistent sentence lengths throughout"] ++
    (if (0.15 : ℚ) < metrics_q.question_ratio then
       ["They frequently use rhetorical questions to engage readers"]
     else if (0.05 : ℚ) < metrics_q.question_ratio then ["They occasionally use questions"]
     else []) ++
    (if (0.1 : ℚ) < metrics_q.exclamation_ratio then
       ["Exclamation marks are used liberally for emphasis and energy"] else []) ++
    (if (0.6 : ℚ) < metrics_vocab.vocabulary_richness then ["The vocabulary is rich and varied"]
     else if metrics_vocab.vocabulary_richness < (0.4 : ℚ) then
       ["The vocabulary is focused and repetitive (which creates familiarity)"]
     else []) ++
    (if (0.03 : ℚ) < metrics_vocab.contraction_ratio then
       ["Heavy use of contractions gives a conversational, informal tone"]
     else if metrics_vocab.contraction_ratio < (0.01 : ℚ) then
       ["Minimal contractions suggest a more formal tone"]
     else []) ++
    (if metrics_fmt.uses_bullet_points then
       ["Bullet points and lists are part of the formatting style"] else []) ++
    (if (0.5 : ℚ) < metrics_punct.emoji_frequency then
       ["Emojis are used frequently as part of the communication style"]
     else if (0 : ℚ) < metrics_punct.emoji_frequency then ["Emojis are used sparingly"]
     else []) ++
    (if (0.5 : ℚ) < metrics_punct.dash_frequency then
       ["Dashes are used frequently for emphasis or asides"] else []) ++
    (if (0.5 : ℚ) < metrics_rhythm.opens_with_short_sentence then
       ["Paragraphs often open with a short, punchy statement"] else [])
  String.intercalate ". " summary_parts ++ "."

/-! ## The pipeline orchestrator (`StyleAnalyzer.analyze`) -/

/-- The merged flat metric record (`metrics` of the returned profile). -/
structure StyleMetrics where
  avg_sentence_length : ℚ
  sentence_length_std_sq : ℚ
  short_sentence_ratio : ℚ
  long_sentence_ratio : ℚ
  question_ratio : ℚ
  exclamation_ratio : ℚ
  avg_paragraph_length : ℚ
  uses_bullet_points : Bool
  bullet_frequency : ℚ
  vocabulary_richness : ℚ
  avg_word_length : ℚ
  contraction_ratio : ℚ
  emoji_frequency : ℚ
  ellipsis_frequency : ℚ
  dash_frequency : ℚ
  parenthetical_frequency : ℚ
  opens_with_short_sentence : ℚ
  sentence_length_variation : String
deriving DecidableEq, Repr

/-- The full profile record returned by `analyze`. -/
structure StyleProfile where
  metrics : StyleMetrics
  signature_phrases : List String
  vocabulary_preferences : List String
  sentence_starters : List String
  transition_words : List String
  formatting_style : String
  sample_excerpts : List String
  raw_style_summary : String
deriving DecidableEq, Repr

/-- `StyleAnalyzer(samples).analyze()`: run every extractor and miner at the
source's default arguments and assemble the profile. -/
def analyze (samples : List String) : StyleProfile :=
  let sentence_metrics := analyze_sentence_structure samples
  let question_metrics := analyze_questions_hooks samples
  let formatting_metrics := analyze_formatting samples
  let vocabulary_metrics := analyze_vocabulary samples
  let punctuation_metrics := analyze_punctuation_emoji samples
  let rhythm_metrics := analyze_rhythm samples
  { metrics :=
      { avg_sentence_length := sentence_metrics.avg_sentence_length
        sentence_length_std_sq := sentence_metrics.sentence_length_std_sq
        short_sentence_ratio := sentence_metrics.short_sentence_ratio
        long_sentence_ratio := sentence_metrics.long_sentence_ratio
        question_ratio := question_metrics.question_ratio
        exclamation_ratio := question_metrics.exclamation_ratio
        avg_paragraph_length := formatting_metrics.avg_paragraph_length
        uses_bullet_points := formatting_metrics.uses_bullet_points
        bullet_frequency := formatting_metrics.bullet_frequency
        vocabulary_richness := vocabulary_metrics.vocabulary_richness
        avg_word_length := vocabulary_metrics.avg_word_length
        contraction_ratio := vocabulary_metrics.contraction_ratio
        emoji_frequency := punctuation_metrics.emoji_frequency
        ellipsis_frequency := punctuation_metrics.ellipsis_frequency
        dash_frequency := punctuation_metrics.dash_frequency
        parenthetical_frequency := punctuation_metrics.parenthetical_frequency
        opens_with_short_sentence := rhythm_metrics.opens_with_short_sentence
        sentence_length_variation := rhythm_metrics.sentence_length_variation }
    signature_phrases := extract_signature_phrases samples 10
    vocabulary_preferences := extract_vocabulary_preferences samples 15
    sentence_starters := extract_sentence_starters samples 10
    transition_words := extract_transition_words samples 10
    formatting_style := describe_formatting_style samples
    sample_excerpts := extract_sample_excerpts samples 5 200
    raw_style_summary := generate_style_summary samples }

/-! ## Helper lemmas: `dropWhile`, `strip` -/

theorem dropWhile_head_not (p : Char → Bool) (l : List Char) (c : Char)
    (h : (l.dropWhile p).head? = some c) : p c = false := by
  induction l with
  | nil => simp [List.dropWhile] at h
  | cons a rest ih =>
    by_cases hpa : p a
    · rw [List.dropWhile_cons_of_pos hpa] at h
      exact ih h
    · rw [List.dropWhile_cons_of_neg hpa] at h
      simp at h
      subst h
      simpa using hpa

theorem dropWhile_eq_self_of_head (p : Char → Bool) (l : List Char)
    (h : ∀ c, l.head? = some c → p c = false) : l.dropWhile p = l := by
  cases l with
  | nil => rfl
  | cons a rest =>
    have := h a rfl
    simp [List.dropWhile, this]

theorem dropWhile_idem (p : Char → Bool) (l : List Char) :
    (l.dropWhile p).dropWhile p = l.dropWhile p := by
  apply dropWhile_eq_self_of_head
  intro c hc
  exact dropWhile_head_not p l c hc

theorem dropWhile_length_lt (p : Char → Bool) (l : List Char) (c : Char)
    (hh : l.head? = some c) (hp : p c = true) : (l.dropWhile p).length < l.length := by
  cases l with
  | nil => simp at hh
  | cons a rest =>
    simp at hh
    subst hh
    rw [List.dropWhile_cons_of_pos hp]
    exact Nat.lt_succ_of_le (List.dropWhile_sublist p (l := rest)).length_le

theorem lstrip_idem (l : List Char) : lstripChars (lstripChars l) = lstripChars l :=
  dropWhile_idem isSpaceChar l

theorem rstrip_getLast_not_space (l : List Char) (c : Char)
    (h : (rstripChars l).getLast? = some c) : isSpaceChar c = false := by
  unfold rstripChars at h
  rw [List.getLast?_reverse] at h
  exact dropWhile_head_not isSpaceChar l.reverse c h

theorem rstrip_eq_self_of_getLast (l : List Char)
    (h : ∀ c, l.getLast? = some c → isSpaceChar c = false) : rstripChars l = l := by
  unfold rstripChars
  rw [dropWhile_eq_self_of_head isSpaceChar l.reverse, List.reverse_reverse]
  intro c hc
  rw [List.head?_reverse] at hc
  exact h c hc

theorem lstrip_suffix (l : List Char) : (lstripChars l).IsSuffix l :=
  ⟨l.takeWhile isSpaceChar, by unfold lstripChars; exact List.takeWhile_append_dropWhile _ _⟩

theorem lstrip_getLast? (l : List Char) (h : lstripChars l ≠ []) :
    (lstripChars l).getLast? = l.getLast? := by
  obtain ⟨t, ht⟩ := lstrip_suffix l
  conv_rhs => rw [← ht]
  rw [List.getLast?_append_of_ne_nil _ h]

theorem strip_idem (l : List Char) : stripChars (stripChars l) = stripChars l := by
  unfold stripChars
  have hz : rstripChars (lstripChars (rstripChars l)) = lstripChars (rstripChars l) := by
    apply rstrip_eq_self_of_getLast
    intro c hc
    by_cases hne : lstripChars (rstripChars l) = []
    · rw [hne] at hc; simp at hc
    · rw [lstrip_getLast? _ hne] at hc
      exact rstrip_getLast_not_space l c hc
  rw [hz, lstrip_idem]

theorem strip_length_le (l : List Char) : (stripChars l).length ≤ l.length := by
  unfold stripChars lstripChars rstripChars
  calc ((l.reverse.dropWhile isSpaceChar).reverse.dropWhile isSpaceChar).length
      ≤ (l.reverse.dropWhile isSpaceChar).reverse.length :=
        (List.dropWhile_sublist _ (l := _)).length_le
    _ ≤ l.length := by
        rw [List.length_reverse]
        calc (l.reverse.dropWhile isSpaceChar).length ≤ l.reverse.length :=
              (List.dropWhile_sublist _ (l := _)).length_le
          _ = l.length := List.length_reverse l

theorem strip_length_lt_of_last_space (l : List Char) (h : l.getLast? = some ' ') :
    (stripChars l).length < l.length := by
  unfold stripChars
  have h1 : (rstripChars l).length < l.length := by
    unfold rstripChars
    rw [List.length_reverse]
    have hh : l.reverse.head? = some ' ' := by rw [List.head?_reverse]; exact h
    have := dropWhile_length_lt isSpaceChar l.reverse ' ' hh (by decide)
    rw [List.length_reverse] at this
    exact this
  exact Nat.lt_of_le_of_lt (List.dropWhile_sublist _ (l := _)).length_le h1

/-! ## Helper lemmas: the bounded push loops -/

theorem pushLoop_length_le (n : Nat) (f : β → List α → Option α) :
    ∀ (xs : List β) (acc : List α), acc.length < n → (pushLoop n f xs acc).length ≤ n := by
  intro xs
  induction xs with
  | nil => intro acc h; exact Nat.le_of_lt h
  | cons x rest ih =>
    intro acc h
    rw [pushLoop]
    have hlen : (match f x acc with
        | some a => acc ++ [a]
        | none => acc).length ≤ acc.length + 1 := by
      cases f x acc <;> simp
    by_cases hb : n ≤ (match f x acc with
        | some a => acc ++ [a]
        | none => acc).length
    · rw [if_pos hb]; omega
    · rw [if_neg hb]
      exact ih _ (Nat.lt_of_not_le hb)

/-! ## Claim C1 — determinism of the pipeline -/

/-- Claim C1: the full analysis pipeline is deterministic — `analyze` is a
pure function of the sample list alone, so two runs on equal sample lists
(same samples, same order) produce identical profile records, every rounded
metric field included; there is no randomness or clock input anywhere in the
embedding. -/
theorem analyze_deterministic (S T : List String) (h : S = T) : analyze S = analyze T := by
  rw [h]

/-- Witness for C1 at a concrete corpus. -/
theorem analyze_deterministic_witness :
    analyze ["I love this. Don't you? It's amazing!!"] =
      analyze ["I love this. Don't you? It's amazing!!"] :=
  analyze_deterministic _ _ rfl

/-! ## Claim C9 — size caps of the ranked lists -/

/-- Claim C9: the ranked lists in the profile respect their default size
caps — at most 10 signature phrases, 15 vocabulary preferences, 10 sentence
starters and 10 transition words. -/
theorem ranked_lists_size_caps (samples : List String) :
    (analyze samples).signature_phrases.length ≤ 10 ∧
    (analyze samples).vocabulary_preferences.length ≤ 15 ∧
    (analyze samples).sentence_starters.length ≤ 10 ∧
    (analyze samples).transition_words.length ≤ 10 := by
  refine ⟨?_, ?_, ?_, ?_⟩
  · show ((extract_signature_phrases samples 10).length ≤ 10)
    unfold extract_signature_phrases
    simp
  · show ((extract_vocabulary_preferences samples 15).length ≤ 15)
    unfold extract_vocabulary_preferences
    rw [List.length_map]
    exact pushLoop_length_le 15 vocabPush _ [] (by decide)
  · show ((extract_sentence_starters samples 10).length ≤ 10)
    unfold extract_sentence_starters
    rw [List.length_map]
    exact pushLoop_length_le 10 starterPush _ [] (by decide)
  · show ((extract_transition_words samples 10).length ≤ 10)
    unfold extract_transition_words
    simp

/-! ## Claim C6 — paragraph splitting -/

/-- Counterexample to C6 as stated: a line beginning with a numbered-list
marker does **not** open a new paragraph — `split_paragraphs` only splits
before `[-•*]` bullet lines (the `\n(?=\s*[-•*])` branch), so
`"abc\n1. item"` stays one paragraph, where the claim demands the split
`["abc", "1. item"]`. -/
theorem split_paragraphs_numbered_no_split :
    split_paragraphs "abc\n1. item".data = ["abc\n1. item".data] ∧
    split_paragraphs "abc\n- item".data = ["abc".data, "- item".data] := by
  constructor <;> decide

/-- Claim C6 (corrected): paragraph splitting breaks the text at blank lines
and additionally before every line that begins with a **bullet** marker
(`-`, `•`, `*`) — numbered-list lines do not open a paragraph — and drops
empty fragments, so each returned paragraph is a non-empty stripped string. -/
theorem split_paragraphs_nonempty_stripped (t p : List Char)
    (hp : p ∈ split_paragraphs t) : p ≠ [] ∧ stripChars p = p := by
  unfold split_paragraphs at hp
  rw [List.mem_filter] at hp
  obtain ⟨hmem, hne⟩ := hp
  rw [List.mem_map] at hmem
  obtain ⟨q, _, hq⟩ := hmem
  constructor
  · intro hnil
    rw [hnil] at hne
    simp at hne
  · rw [← hq]
    exact strip_idem q

/-- Witness for C6 at a concrete text and paragraph. -/
theorem split_paragraphs_nonempty_stripped_witness :
    "Hello".data ∈ split_paragraphs " Hello \n\n world".data ∧
    ("Hello".data ≠ [] ∧ stripChars "Hello".data = "Hello".data) :=
  ⟨by decide, split_paragraphs_nonempty_stripped " Hello \n\n world".data "Hello".data (by decide)⟩

/-! ## Claim C8 — sample excerpts -/

theorem excerptAcc_inv (M : Nat) :
    ∀ (sents : List (List Char)) (acc : List Char),
      (acc = [] ∨ (acc.getLast? = some ' ' ∧ acc.length ≤ M + 1)) →
      (excerptAcc M sents acc = [] ∨
        ((excerptAcc M sents acc).getLast? = some ' ' ∧
          (excerptAcc M sents acc).length ≤ M + 1)) := by
  intro sents
  induction sents with
  | nil => intro acc h; exact h
  | cons s rest ih =>
    intro acc h
    rw [excerptAcc]
    by_cases hb : acc.length + s.length ≤ M
    · rw [if_pos hb]
      apply ih
      right
      constructor
      · exact List.getLast?_concat _
      · simp
        omega
    · rw [if_neg hb]
      exact h

theorem strip_excerptAcc_le (M : Nat) (sents : List (List Char)) :
    (stripChars (excerptAcc M sents [])).length ≤ M := by
  have hq := excerptAcc_inv M sents [] (Or.inl rfl)
  rcases hq with hq | ⟨hlast, hlen⟩
  · rw [hq]; simp [stripChars, lstripChars, rstripChars]
  · have := strip_length_lt_of_last_space _ hlast
    omega

theorem excerptOfSample_length_le (s d : List Char)
    (h : excerptOfSample 200 s = some d) : d.length ≤ 200 := by
  unfold excerptOfSample at h
  rcases hs : split_sentences s with - | ⟨s0, srest⟩ <;> rw [hs] at h
  · simp at h
  · dsimp only at h
    by_cases he : (stripChars (excerptAcc 200 ((s0 :: srest).take 3) [])).isEmpty
    · rw [if_pos he] at h; simp at h
    · rw [if_neg he] at h
      rw [Option.some.injEq] at h
      rw [← h]
      exact strip_excerptAcc_le 200 _

/-- Claim C8: excerpt extraction builds, per sample, the greedy concatenation
of that sample's first at-most-3 sentences staying within the 200-character
budget (stopping at the first sentence that would exceed it); the result has
at most one entry per sample, in sample order, at most 5 entries, and every
returned excerpt has length at most 200. -/
theorem sample_excerpts_ok (samples : List String) :
    (analyze samples).sample_excerpts =
      (((samples.map String.data).filterMap (excerptOfSample 200)).take 5).map
        (fun e => String.mk e) ∧
    (analyze samples).sample_excerpts.length ≤ 5 ∧
    (analyze samples).sample_excerpts.all (fun e => e.length ≤ 200) = true := by
  refine ⟨rfl, ?_, ?_⟩
  · show (extract_sample_excerpts samples 5 200).length ≤ 5
    unfold extract_sample_excerpts
    simp
  · show (extract_sample_excerpts samples 5 200).all _ = true
    unfold extract_sample_excerpts
    rw [List.all_eq_true]
    intro e he
    rw [List.mem_map] at he
    obtain ⟨d, hd, hde⟩ := he
    have hd' : d ∈ (samples.map String.data).filterMap (excerptOfSample 200) :=
      List.mem_of_mem_take hd
    rw [List.mem_filterMap] at hd'
    obtain ⟨s, _, hsd⟩ := hd'
    have hlen := excerptOfSample_length_le s d hsd
    subst hde
    simpa using hlen

/-! ## Claim C2 — empty / all-whitespace corpora -/

theorem space_char_cases (c : Char) (h : isSpaceChar c = true) :
    c = ' ' ∨ c = '\t' ∨ c = '\n' ∨ c = '\r' ∨ c = '\x0b' ∨ c = '\x0c' := by
  simp only [isSpaceChar, Bool.or_eq_true, decide_eq_true_eq] at h
  tauto

theorem space_not_word (c : Char) (h : isSpaceChar c = true) : isWordChar c = false := by
  rcases space_char_cases c h with h | h | h | h | h | h <;> subst h <;> decide

theorem strip_of_allSpace (l : List Char) (h : ∀ c ∈ l, isSpaceChar c = true) :
    stripChars l = [] := by
  unfold stripChars lstripChars rstripChars
  have h1 : l.reverse.dropWhile isSpaceChar = [] := by
    rw [List.dropWhile_eq_nil_iff]
    intro c hc
    exact h c (List.mem_reverse.1 hc)
  rw [h1]
  rfl

theorem collapseWs_allSpace (l : List Char) (h : ∀ c ∈ l, isSpaceChar c = true) :
    ∀ c ∈ collapseWs l, isSpaceChar c = true := by
  induction l with
  | nil => intro c hc; simp [collapseWs] at hc
  | cons a rest ih =>
    intro c hc
    cases rest with
    | nil =>
      have ha := h a (by simp)
      simp only [collapseWs, if_pos ha] at hc
      simp at hc
      subst hc; decide
    | cons b rest2 =>
      have ha := h a (by simp)
      have hb := h b (by simp)
      rw [collapseWs, if_pos (by rw [ha, hb]; rfl)] at hc
      exact ih (fun c hc => h c (List.mem_cons_of_mem a hc)) c hc

theorem normalizeWs_allSpace (l : List Char) (h : ∀ c ∈ l, isSpaceChar c = true) :
    normalizeWs l = [] :=
  strip_of_allSpace _ (collapseWs_allSpace l h)

theorem split_sentences_allSpace (l : List Char) (h : ∀ c ∈ l, isSpaceChar c = true) :
    split_sentences l = [] := by
  unfold split_sentences
  rw [normalizeWs_allSpace l h]
  rfl

theorem tokWordsAux_nil (t : List Char) (h : ∀ c ∈ t, isWordChar c = false) :
    tokWordsAux [] t = [] := by
  induction t with
  | nil => rfl
  | cons c rest ih =>
    rw [tokWordsAux, if_neg (by simp [h c (by simp)])]
    simp only [List.isEmpty_nil, if_pos rfl]
    exact ih (fun c hc => h c (List.mem_cons_of_mem _ hc))

theorem get_words_allSpace (l : List Char) (h : ∀ c ∈ l, isSpaceChar c = true) :
    get_words l = [] := by
  unfold get_words tokenizeWords
  rw [tokWordsAux_nil l (fun c hc => space_not_word c (h c hc))]
  rfl

theorem paraSplitAux_allSpace :
    ∀ (fuel : Nat) (cur rest : List Char),
      (∀ c ∈ cur, isSpaceChar c = true) → (∀ c ∈ rest, isSpaceChar c = true) →
      ∀ p ∈ paraSplitAux fuel cur rest, ∀ c ∈ p, isSpaceChar c = true := by
  intro fuel
  induction fuel with
  | zero =>
    intro cur rest hcur hrest p hp c hc
    simp only [paraSplitAux, List.mem_singleton] at hp
    subst hp
    rcases List.mem_append.1 hc with h | h
    · exact hcur c (List.mem_reverse.1 h)
    · exact hrest c h
  | succ fuel ih =>
    intro cur rest hcur hrest p hp c hc
    cases rest with
    | nil =>
      simp only [paraSplitAux, List.mem_singleton] at hp
      subst hp
      exact hcur c (List.mem_reverse.1 hc)
    | cons a rest' =>
      have ha := hrest a (by simp)
      have hrest' : ∀ c ∈ rest', isSpaceChar c = true :=
        fun c hc => hrest c (List.mem_cons_of_mem _ hc)
      rw [paraSplitAux] at hp
      by_cases han : a = '\n'
      · rw [if_pos han] at hp
        cases hnl : lastNlIdx (rest'.takeWhile isSpaceChar) with
        | some k =>
          rw [hnl] at hp
          rcases List.mem_cons.1 hp with hp | hp
          · subst hp; exact hcur c (List.mem_reverse.1 hc)
          · exact ih [] _ (by simp)
              (fun c hc => hrest' c (List.drop_subset _ _ hc)) p hp c hc
        | none =>
          rw [hnl] at hp
          cases hhd : (rest'.dropWhile isSpaceChar).head? with
          | some b =>
            rw [hhd] at hp
            dsimp only at hp
            by_cases hbul : isBulletChar b
            · rw [if_pos hbul] at hp
              rcases List.mem_cons.1 hp with hp | hp
              · subst hp; exact hcur c (List.mem_reverse.1 hc)
              · exact ih [] rest' (by simp) hrest' p hp c hc
            · rw [if_neg hbul] at hp
              refine ih ('\n' :: cur) rest' ?_ hrest' p hp c hc
              intro c hc
              rcases List.mem_cons.1 hc with hc | hc
              · subst hc; decide
              · exact hcur c hc
          | none =>
            rw [hhd] at hp
            refine ih ('\n' :: cur) rest' ?_ hrest' p hp c hc
            intro c hc
            rcases List.mem_cons.1 hc with hc | hc
            · subst hc; decide
            · exact hcur c hc
      · rw [if_neg han] at hp
        refine ih (a :: cur) rest' ?_ hrest' p hp c hc
        intro c hc
        rcases List.mem_cons.1 hc with hc | hc
        · subst hc; exact ha
        · exact hcur c hc

theorem split_paragraphs_allSpace (l : List Char) (h : ∀ c ∈ l, isSpaceChar c = true) :
    split_paragraphs l = [] := by
  unfold split_paragraphs
  rw [List.filter_eq_nil_iff]
  intro p hp
  rw [List.mem_map] at hp
  obtain ⟨q, hq, hpq⟩ := hp
  have hqs : ∀ c ∈ q, isSpaceChar c = true :=
    paraSplitAux_allSpace (l.length + 1) [] l (by simp) h q hq
  rw [← hpq, strip_of_allSpace q hqs]
  decide

theorem contractionPatterns_heads :
    ∀ pat ∈ contractionPatterns, pat ≠ [] ∧ isWordChar pat.headI = true := by
  decide

theorem contrTryMatch_none_of_space (c : Char) (rest : List Char)
    (hc : isSpaceChar c = true) : contrTryMatch (c :: rest) = none := by
  unfold contrTryMatch
  have hnone : contractionPatterns.find?
      (fun pat => matchesAt pat (c :: rest) && contrBoundaryAfter pat (c :: rest)) = none := by
    rw [List.find?_eq_none]
    intro pat hpat
    obtain ⟨hne, hw⟩ := contractionPatterns_heads pat hpat
    cases pat with
    | nil => exact absurd rfl hne
    | cons h t =>
      simp only [List.headI] at hw
      have hhc : h ≠ c := by
        intro he
        rw [he, space_not_word c hc] at hw
        exact Bool.false_ne_true hw
      simp [matchesAt, hhc]
  rw [hnone]
  rfl

theorem contrCountAux_allSpace :
    ∀ (fuel : Nat) (b : Bool) (t : List Char),
      (∀ c ∈ t, isSpaceChar c = true) → contrCountAux fuel b t = 0 := by
  intro fuel
  induction fuel with
  | zero => intro b t _; rfl
  | succ fuel ih =>
    intro b t ht
    cases t with
    | nil => rfl
    | cons c rest =>
      have hc := ht c (by simp)
      have hrest : ∀ c ∈ rest, isSpaceChar c = true :=
        fun c hc => ht c (List.mem_cons_of_mem _ hc)
      cases b with
      | true => rw [contrCountAux]; exact ih _ rest hrest
      | false =>
        rw [contrCountAux, contrTryMatch_none_of_space c rest hc]
        exact ih _ rest hrest

theorem runCountP_zero (p : Char → Bool) :
    ∀ (b : Bool) (t : List Char), (∀ c ∈ t, p c = false) → runCountP p b t = 0 := by
  intro b t
  induction t generalizing b with
  | nil => intro _; rfl
  | cons c rest ih =>
    intro ht
    have hc := ht c (by simp)
    rw [runCountP, if_neg (by simp [hc])]
    exact ih _ (fun c hc => ht c (List.mem_cons_of_mem _ hc))

theorem space_not_emoji (c : Char) (h : isSpaceChar c = true) : isEmojiChar c = false := by
  rcases space_char_cases c h with h | h | h | h | h | h <;> subst h <;> decide

theorem ellipsisCountAux_allSpace :
    ∀ (fuel : Nat) (t : List Char),
      (∀ c ∈ t, isSpaceChar c = true) → ellipsisCountAux fuel t = 0 := by
  intro fuel
  induction fuel with
  | zero => intro t _; rfl
  | succ fuel ih =>
    intro t ht
    cases t with
    | nil => rfl
    | cons c rest =>
      have hc := ht c (by simp)
      have hc1 : c ≠ '…' := by
        rcases space_char_cases c hc with h | h | h | h | h | h <;> subst h <;> decide
      have hc2 : c ≠ '.' := by
        rcases space_char_cases c hc with h | h | h | h | h | h <;> subst h <;> decide
      rw [ellipsisCountAux, if_neg hc1, if_neg hc2]
      exact ih rest (fun c hc => ht c (List.mem_cons_of_mem _ hc))


theorem dashCountAux_allSpace :
    ∀ (fuel : Nat) (t : List Char),
      (∀ c ∈ t, isSpaceChar c = true) → dashCountAux fuel t = 0 := by
  intro fuel
  induction fuel with
  | zero => intro t _; rfl
  | succ fuel ih =>
    intro t ht
    cases t with
    | nil => rfl
    | cons c rest =>
      have hc := ht c (by simp)
      have hrest : ∀ c ∈ rest, isSpaceChar c = true :=
        fun c hc => ht c (List.mem_cons_of_mem _ hc)
      have hcd : ¬(c = '—' || c = '–') = true := by
        rcases space_char_cases c hc with h | h | h | h | h | h <;> subst h <;> decide
      rw [dashCountAux, if_neg hcd]
      cases htc : twoChars? rest with
      | none => exact ih _ hrest
      | some v =>
        obtain ⟨d, b, rest2⟩ := v
        have hd : isSpaceChar d = true := by
          cases rest with
          | nil => simp [twoChars?] at htc
          | cons x xs =>
            cases xs with
            | nil => simp [twoChars?] at htc
            | cons y ys =>
              simp [twoChars?] at htc
              obtain ⟨hx, -, -⟩ := htc
              subst hx
              exact hrest x (by simp)
        have hdne : d ≠ '-' := by
          rcases space_char_cases d hd with h | h | h | h | h | h <;> subst h <;> decide
        dsimp only
        rw [if_neg (by simp [hdne])]
        exact ih _ hrest

theorem parenCountAux_none_allSpace :
    ∀ (t : List Char), (∀ c ∈ t, isSpaceChar c = true) → parenCountAux none t = 0 := by
  intro t
  induction t with
  | nil => intro _; rfl
  | cons c rest ih =>
    intro ht
    have hc := ht c (by simp)
    have hcp : c ≠ '(' := by
      rcases space_char_cases c hc with h | h | h | h | h | h <;> subst h <;> decide
    rw [parenCountAux, if_neg hcp]
    exact ih (fun c hc => ht c (List.mem_cons_of_mem _ hc))

theorem joinSamples_allSpace :
    ∀ (l : List (List Char)), (∀ s ∈ l, ∀ c ∈ s, isSpaceChar c = true) →
      ∀ c ∈ joinSamples l, isSpaceChar c = true := by
  intro l
  induction l with
  | nil => intro _ c hc; simp [joinSamples] at hc
  | cons s rest ih =>
    intro h c hc
    cases rest with
    | nil =>
      rw [show joinSamples [s] = s from rfl] at hc
      exact h s (by simp) c hc
    | cons s2 rest2 =>
      rw [show joinSamples (s :: s2 :: rest2) = s ++ '\n' :: '\n' :: joinSamples (s2 :: rest2)
          from rfl] at hc
      rcases List.mem_append.1 hc with hc | hc
      · exact h s (by simp) c hc
      · rcases List.mem_cons.1 hc with hc | hc
        · subst hc; decide
        · rcases List.mem_cons.1 hc with hc | hc
          · subst hc; decide
          · exact ih (fun s hs => h s (List.mem_cons_of_mem _ hs)) c hc

theorem lowerChar_space (c : Char) (h : isSpaceChar c = true) : lowerChar c = c := by
  rcases space_char_cases c h with h | h | h | h | h | h <;> subst h <;> decide

theorem roundQ_zero (p : ℕ) : roundQ p 0 = 0 := by
  unfold roundQ rhe
  norm_num

/-- The documented all-zero / false / "low" default metric record. -/
def emptyCorpusMetrics : StyleMetrics :=
  { avg_sentence_length := 0, sentence_length_std_sq := 0, short_sentence_ratio := 0,
    long_sentence_ratio := 0, question_ratio := 0, exclamation_ratio := 0,
    avg_paragraph_length := 0, uses_bullet_points := false, bullet_frequency := 0,
    vocabulary_richness := 0, avg_word_length := 0, contraction_ratio := 0,
    emoji_frequency := 0, ellipsis_frequency := 0, dash_frequency := 0,
    parenthetical_frequency := 0, opens_with_short_sentence := 0,
    sentence_length_variation := "low" }

/-- Claim C2: on a corpus of empty or all-whitespace samples (no sentences,
paragraphs or words) `analyze` returns the documented defaults — every
numeric metric 0, `uses_bullet_points` false, `sentence_length_variation`
"low" — and, being a total function, raises nothing. -/
theorem analyze_allWhitespace_defaults (samples : List String)
    (h : ∀ s ∈ samples, ∀ c ∈ s.data, isSpaceChar c = true) :
    (analyze samples).metrics = emptyCorpusMetrics := by
  have hsent : allSentences samples = [] := by
    unfold allSentences
    rw [List.flatten_eq_nil_iff]
    intro l hl
    rw [List.mem_map] at hl
    obtain ⟨s, hs, hls⟩ := hl
    rw [← hls]
    exact split_sentences_allSpace _ (h s hs)
  have hpara : allParagraphs samples = [] := by
    unfold allParagraphs
    rw [List.flatten_eq_nil_iff]
    intro l hl
    rw [List.mem_map] at hl
    obtain ⟨s, hs, hls⟩ := hl
    rw [← hls]
    exact split_paragraphs_allSpace _ (h s hs)
  have hword : allWords samples = [] := by
    unfold allWords
    rw [List.flatten_eq_nil_iff]
    intro l hl
    rw [List.mem_map] at hl
    obtain ⟨s, hs, hls⟩ := hl
    rw [← hls]
    exact get_words_allSpace _ (h s hs)
  have hcomb : ∀ c ∈ combinedText samples, isSpaceChar c = true := by
    unfold combinedText
    apply joinSamples_allSpace
    intro s hs
    rw [List.mem_map] at hs
    obtain ⟨s', hs', hss⟩ := hs
    rw [← hss]
    exact h s' hs'
  have hcombl : ∀ c ∈ (combinedText samples).map lowerChar, isSpaceChar c = true := by
    intro c hc
    rw [List.mem_map] at hc
    obtain ⟨c', hc', hcc⟩ := hc
    rw [← hcc, lowerChar_space c' (hcomb c' hc')]
    exact hcomb c' hc'
  have h1 : analyze_sentence_structure samples = ⟨0, 0, 0, 0⟩ := by
    unfold analyze_sentence_structure
    rw [hsent]
    rfl
  have h2 : analyze_questions_hooks samples = ⟨0, 0⟩ := by
    unfold analyze_questions_hooks
    rw [hsent]
    rfl
  have h3 : analyze_formatting samples = ⟨0, false, 0⟩ := by
    unfold analyze_formatting
    rw [hpara]
    rfl
  have h4 : analyze_vocabulary samples = ⟨0, 0, 0⟩ := by
    unfold analyze_vocabulary
    rw [hword]
    rfl
  have h5 : analyze_punctuation_emoji samples = ⟨0, 0, 0, 0⟩ := by
    have he : emojiCount (combinedText samples) = 0 :=
      runCountP_zero _ false _ (fun c hc => space_not_emoji c (hcomb c hc))
    have hel : ellipsisCount (combinedText samples) = 0 :=
      ellipsisCountAux_allSpace _ _ hcomb
    have hda : dashCount (combinedText samples) = 0 :=
      dashCountAux_allSpace _ _ hcomb
    have hpa : parenCount (combinedText samples) = 0 :=
      parenCountAux_none_allSpace _ hcomb
    have hco : contraction_count ((combinedText samples).map lowerChar) = 0 :=
      contrCountAux_allSpace _ false _ hcombl
    unfold analyze_punctuation_emoji
    dsimp only
    rw [hword, he, hel, hda, hpa]
    norm_num [roundQ_zero]
  have h6 : analyze_rhythm samples = ⟨0, "low"⟩ := by
    unfold analyze_rhythm
    rw [hpara]
    rfl
  show StyleProfile.metrics _ = _
  unfold analyze
  rw [h1, h2, h3, h4, h5, h6]
  rfl

/-- Witness for C2 at the concrete corpus `[""]`. -/
theorem analyze_allWhitespace_defaults_witness :
    (∀ s ∈ ([""] : List String), ∀ c ∈ s.data, isSpaceChar c = true) ∧
    (analyze [""]).metrics = emptyCorpusMetrics :=
  ⟨by decide, analyze_allWhitespace_defaults [""] (by decide)⟩

/-! ## Claim C3 — ratio fields lie in `[0, 1]` -/

theorem rhe_bounds (x : ℚ) (M : ℤ) (hx : 0 ≤ x) (hxM : x ≤ (M : ℚ)) :
    0 ≤ rhe x ∧ rhe x ≤ M := by
  unfold rhe
  have hf0 : 0 ≤ ⌊x⌋ := Int.floor_nonneg.2 hx
  have hfM : ⌊x⌋ ≤ M := by
    have := Int.floor_le_floor (α := ℚ) hxM
    rwa [Int.floor_intCast] at this
  by_cases h1 : x - ⌊x⌋ < 1/2
  · rw [if_pos h1]
    exact ⟨hf0, hfM⟩
  · have hlt : ⌊x⌋ < M := by
      have hr : (1 : ℚ)/2 ≤ x - ⌊x⌋ := le_of_not_lt h1
      have : (⌊x⌋ : ℚ) + 1/2 ≤ x := by linarith
      have hq : (⌊x⌋ : ℚ) < (M : ℚ) := by linarith
      exact_mod_cast hq
    rw [if_neg h1]
    by_cases h2 : 1/2 < x - ⌊x⌋
    · rw [if_pos h2]
      omega
    · rw [if_neg h2]
      by_cases h3 : ⌊x⌋ % 2 = 0
      · rw [if_pos h3]; exact ⟨hf0, hfM⟩
      · rw [if_neg h3]; omega

theorem roundQ_unit (p : ℕ) (q : ℚ) (h0 : 0 ≤ q) (h1 : q ≤ 1) :
    0 ≤ roundQ p q ∧ roundQ p q ≤ 1 := by
  have hMpos : (0 : ℚ) < (10 : ℚ) ^ p := by positivity
  have hx0 : 0 ≤ q * (10 : ℚ) ^ p := mul_nonneg h0 (le_of_lt hMpos)
  have hxM : q * (10 : ℚ) ^ p ≤ (((10 : ℤ) ^ p : ℤ) : ℚ) := by
    push_cast
    nlinarith
  obtain ⟨hr0, hrM⟩ := rhe_bounds _ _ hx0 hxM
  unfold roundQ
  constructor
  · apply div_nonneg _ (le_of_lt hMpos)
    exact_mod_cast hr0
  · rw [div_le_one hMpos]
    calc ((rhe (q * (10 : ℚ) ^ p) : ℤ) : ℚ) ≤ (((10 : ℤ) ^ p : ℤ) : ℚ) := by exact_mod_cast hrM
      _ = (10 : ℚ) ^ p := by push_cast; ring

theorem roundQ_ratio_unit (p a b : ℕ) (hab : a ≤ b) (hb : 0 < b) :
    0 ≤ roundQ p ((a : ℚ) / (b : ℚ)) ∧ roundQ p ((a : ℚ) / (b : ℚ)) ≤ 1 := by
  apply roundQ_unit
  · positivity
  · rw [div_le_one (by exact_mod_cast hb)]
    exact_mod_cast hab

theorem isWordChar_lowerChar (c : Char) : isWordChar (lowerChar c) = isWordChar c := by
  unfold lowerChar
  split <;> rfl

theorem runCountP_cons (p : Char → Bool) (b : Bool) (c : Char) (rest : List Char) :
    runCountP p b (c :: rest) =
      if (p c && !b) = true then 1 + runCountP p true rest else runCountP p (p c) rest := rfl

theorem runCountP_map_lower (t : List Char) :
    ∀ b, runCountP isWordChar b (t.map lowerChar) = runCountP isWordChar b t := by
  induction t with
  | nil => intro b; rfl
  | cons c rest ih =>
    intro b
    rw [List.map_cons, runCountP_cons, runCountP_cons, isWordChar_lowerChar, ih, ih]

theorem runCountP_true_le (p : Char → Bool) :
    ∀ (t : List Char) (b : Bool), runCountP p true t ≤ runCountP p b t := by
  intro t
  induction t with
  | nil => intro b; exact Nat.le_refl 0
  | cons c rest ih =>
    intro b
    rw [runCountP_cons, runCountP_cons]
    by_cases hc : p c = true
    · rw [if_neg (by simp [hc]), hc]
      by_cases hb : b = true
      · subst hb; rw [if_neg (by simp)]
      · rw [Bool.not_eq_true] at hb
        subst hb
        rw [if_pos (by simp [hc])]
        have := ih true
        omega
    · rw [Bool.not_eq_true] at hc
      rw [if_neg (by simp [hc]), if_neg (by simp [hc]), hc]

theorem runCountP_drop_le (p : Char → Bool) :
    ∀ (k : ℕ) (t : List Char) (b : Bool), runCountP p true (t.drop k) ≤ runCountP p b t := by
  intro k
  induction k with
  | zero => intro t b; exact runCountP_true_le p t b
  | succ k ih =>
    intro t b
    cases t with
    | nil => exact Nat.le_refl 0
    | cons c rest =>
      rw [List.drop_succ_cons, runCountP_cons]
      by_cases hb : (p c && !b) = true
      · rw [if_pos hb]
        have := ih rest true
        omega
      · rw [if_neg hb]
        exact ih rest (p c)

theorem contrTryMatch_some (c : Char) (rest : List Char) (len : ℕ)
    (h : contrTryMatch (c :: rest) = some len) : isWordChar c = true ∧ 1 ≤ len := by
  unfold contrTryMatch at h
  cases hf : contractionPatterns.find?
      (fun pat => matchesAt pat (c :: rest) && contrBoundaryAfter pat (c :: rest)) with
  | none => rw [hf] at h; simp at h
  | some pat =>
    rw [hf] at h
    have h : pat.length = len := by simpa using h
    have hmem := List.mem_of_find?_eq_some hf
    have hpred := List.find?_some hf
    rw [Bool.and_eq_true] at hpred
    obtain ⟨hne, hw⟩ := contractionPatterns_heads pat hmem
    cases pat with
    | nil => exact absurd rfl hne
    | cons h0 t0 =>
      simp only [List.headI] at hw
      have : h0 = c := by
        have := hpred.1
        rw [matchesAt, Bool.and_eq_true] at this
        exact of_decide_eq_true this.1
      subst this
      rw [← h]
      exact ⟨hw, by simp⟩

theorem contrCountAux_succ_true (fuel : ℕ) (c : Char) (rest : List Char) :
    contrCountAux (fuel + 1) true (c :: rest) = contrCountAux fuel (isWordChar c) rest := rfl

theorem contrCountAux_succ_false (fuel : ℕ) (c : Char) (rest : List Char) :
    contrCountAux (fuel + 1) false (c :: rest) =
      match contrTryMatch (c :: rest) with
      | some len => 1 + contrCountAux fuel true ((c :: rest).drop len)
      | none => contrCountAux fuel (isWordChar c) rest := rfl

theorem contrCountAux_le_runCountP :
    ∀ (fuel : ℕ) (b : Bool) (t : List Char),
      contrCountAux fuel b t ≤ runCountP isWordChar b t := by
  intro fuel
  induction fuel with
  | zero => intro b t; exact Nat.zero_le _
  | succ fuel ih =>
    intro b t
    cases t with
    | nil => exact Nat.zero_le _
    | cons c rest =>
      cases b with
      | true =>
        rw [contrCountAux_succ_true, runCountP_cons, if_neg (by simp)]
        exact ih _ rest
      | false =>
        rw [contrCountAux_succ_false]
        cases hm : contrTryMatch (c :: rest) with
        | none =>
          dsimp only
          rw [runCountP_cons]
          by_cases hc : isWordChar c = true
          · rw [if_pos (by simp [hc]), hc]
            have := ih true rest
            omega
          · rw [Bool.not_eq_true] at hc
            rw [if_neg (by simp [hc]), hc]
            exact ih _ rest
        | some len =>
          obtain ⟨hcw, hlen⟩ := contrTryMatch_some c rest len hm
          dsimp only
          rw [runCountP_cons, if_pos (by simp [hcw])]
          have hdrop : (c :: rest).drop len = rest.drop (len - 1) := by
            cases len with
            | zero => omega
            | succ k => simp
          have h1 := ih true ((c :: rest).drop len)
          have h2 : runCountP isWordChar true ((c :: rest).drop len) ≤
              runCountP isWordChar true rest := by
            rw [hdrop]
            exact runCountP_drop_le isWordChar (len - 1) rest true
          exact Nat.add_le_add_left (le_trans h1 h2) 1

/-- Whether the character preceding the rest of a scan is in the class, after
scanning `xs` starting from state `b`. -/
def prevAfter (p : Char → Bool) (b : Bool) (xs : List Char) : Bool :=
  xs.foldl (fun _ c => p c) b

theorem runCountP_append (p : Char → Bool) (ys : List Char) :
    ∀ (xs : List Char) (b : Bool),
      runCountP p b (xs ++ ys) = runCountP p b xs + runCountP p (prevAfter p b xs) ys := by
  intro xs
  induction xs with
  | nil => intro b; simp [runCountP, prevAfter]
  | cons c rest ih =>
    intro b
    rw [List.cons_append, runCountP_cons, runCountP_cons]
    by_cases hb : (p c && !b) = true
    · rw [if_pos hb, if_pos hb, ih true]
      have hpc : p c = true := by
        rw [Bool.and_eq_true] at hb
        exact hb.1
      have hpa : prevAfter p b (c :: rest) = prevAfter p true rest := by
        unfold prevAfter
        rw [List.foldl_cons, hpc]
      rw [hpa]
      omega
    · rw [if_neg hb, if_neg hb, ih (p c)]
      have hpa : prevAfter p b (c :: rest) = prevAfter p (p c) rest := by
        unfold prevAfter
        rw [List.foldl_cons]
      rw [hpa]

theorem runCountP_word_joinSamples :
    ∀ (l : List (List Char)),
      runCountP isWordChar false (joinSamples l) =
        (l.map (runCountP isWordChar false)).sum := by
  have hwn : isWordChar '\n' = false := by decide
  intro l
  induction l with
  | nil => rfl
  | cons s rest ih =>
    cases rest with
    | nil => simp [joinSamples]
    | cons s2 rest2 =>
      rw [show joinSamples (s :: s2 :: rest2) = s ++ '\n' :: '\n' :: joinSamples (s2 :: rest2)
          from rfl]
      rw [runCountP_append]
      have hnl : ∀ (q : Bool),
          runCountP isWordChar q ('\n' :: '\n' :: joinSamples (s2 :: rest2)) =
            runCountP isWordChar false (joinSamples (s2 :: rest2)) := by
        intro q
        rw [runCountP_cons, if_neg (by simp [hwn]), hwn, runCountP_cons, if_neg (by simp [hwn]),
          hwn]
      rw [hnl, ih]
      simp

theorem tokWordsAux_length (t : List Char) :
    ∀ (cur : List Char),
      (tokWordsAux cur t).length =
        (if cur.isEmpty then 0 else 1) + runCountP isWordChar (!cur.isEmpty) t := by
  induction t with
  | nil =>
    intro cur
    cases cur with
    | nil => rfl
    | cons a as => rfl
  | cons c rest ih =>
    intro cur
    by_cases hc : isWordChar c = true
    · cases cur with
      | nil =>
        rw [show tokWordsAux [] (c :: rest) = tokWordsAux [c] rest by
              rw [tokWordsAux, if_pos hc]]
        rw [ih [c], runCountP_cons]
        simp [hc]
      | cons a as =>
        rw [show tokWordsAux (a :: as) (c :: rest) = tokWordsAux (c :: a :: as) rest by
              rw [tokWordsAux, if_pos hc]]
        rw [ih (c :: a :: as), runCountP_cons]
        simp [hc]
    · rw [Bool.not_eq_true] at hc
      cases cur with
      | nil =>
        rw [show tokWordsAux [] (c :: rest) = tokWordsAux [] rest by
              rw [tokWordsAux, if_neg (by simp [hc])]
              rfl]
        rw [ih [], runCountP_cons]
        simp [hc]
      | cons a as =>
        rw [show tokWordsAux (a :: as) (c :: rest) = (a :: as).reverse :: tokWordsAux [] rest by
              rw [tokWordsAux, if_neg (by simp [hc])]
              rfl]
        rw [List.length_cons, ih [], runCountP_cons]
        simp [hc]
        omega

theorem count_words_eq_runCountP (t : List Char) :
    count_words t = runCountP isWordChar false t := by
  unfold count_words tokenizeWords
  rw [tokWordsAux_length t []]
  simp

theorem contraction_count_le_allWords (samples : List String) :
    contraction_count ((combinedText samples).map lowerChar) ≤ (allWords samples).length := by
  calc contraction_count ((combinedText samples).map lowerChar)
      ≤ runCountP isWordChar false ((combinedText samples).map lowerChar) :=
        contrCountAux_le_runCountP _ false _
    _ = runCountP isWordChar false (combinedText samples) := runCountP_map_lower _ false
    _ = ((samples.map String.data).map (runCountP isWordChar false)).sum :=
        runCountP_word_joinSamples _
    _ = (allWords samples).length := by
        unfold allWords
        rw [List.length_flatten, List.map_map, List.map_map]
        have hfun : (runCountP isWordChar false ∘ String.data) =
            (List.length ∘ fun s : String => get_words s.data) := by
          funext s
          show runCountP isWordChar false s.data = (get_words s.data).length
          rw [← count_words_eq_runCountP]
          unfold get_words count_words
          rw [List.length_map]
        rw [hfun]

theorem unit_pair_zero : (0 : ℚ) ≤ 0 ∧ (0 : ℚ) ≤ 1 := by norm_num

theorem roundQ_countP_unit {α : Type} (p : α → Bool) (l : List α) (hl : l ≠ []) :
    0 ≤ roundQ 3 ((l.countP p : ℚ) / (l.length : ℚ)) ∧
      roundQ 3 ((l.countP p : ℚ) / (l.length : ℚ)) ≤ 1 :=
  roundQ_ratio_unit 3 _ _ (List.countP_le_length p) (List.length_pos.2 hl)

theorem roundQ_countP_max_unit {α : Type} (p : α → Bool) (l : List α) :
    0 ≤ roundQ 3 ((l.countP p : ℚ) / ((max l.length 1 : ℕ) : ℚ)) ∧
      roundQ 3 ((l.countP p : ℚ) / ((max l.length 1 : ℕ) : ℚ)) ≤ 1 :=
  roundQ_ratio_unit 3 _ _ (le_trans (List.countP_le_length p) (Nat.le_max_left _ 1))
    (Nat.lt_of_lt_of_le Nat.zero_lt_one (Nat.le_max_right _ 1))

/-- Claim C3: every ratio-of-count-to-total metric field of the profile lies
in `[0, 1]`: `short_sentence_ratio`, `long_sentence_ratio`, `question_ratio`,
`exclamation_ratio`, `bullet_frequency`, `vocabulary_richness`,
`contraction_ratio` and `opens_with_short_sentence` (the per-100 frequency
fields are exempt). -/
theorem ratio_fields_in_unit_interval (samples : List String) :
    (0 ≤ (analyze samples).metrics.short_sentence_ratio ∧
      (analyze samples).metrics.short_sentence_ratio ≤ 1) ∧
    (0 ≤ (analyze samples).metrics.long_sentence_ratio ∧
      (analyze samples).metrics.long_sentence_ratio ≤ 1) ∧
    (0 ≤ (analyze samples).metrics.question_ratio ∧
      (analyze samples).metrics.question_ratio ≤ 1) ∧
    (0 ≤ (analyze samples).metrics.exclamation_ratio ∧
      (analyze samples).metrics.exclamation_ratio ≤ 1) ∧
    (0 ≤ (analyze samples).metrics.bullet_frequency ∧
      (analyze samples).metrics.bullet_frequency ≤ 1) ∧
    (0 ≤ (analyze samples).metrics.vocabulary_richness ∧
      (analyze samples).metrics.vocabulary_richness ≤ 1) ∧
    (0 ≤ (analyze samples).metrics.contraction_ratio ∧
      (analyze samples).metrics.contraction_ratio ≤ 1) ∧
    (0 ≤ (analyze samples).metrics.opens_with_short_sentence ∧
      (analyze samples).metrics.opens_with_short_sentence ≤ 1) := by
  refine ⟨?_, ?_, ?_, ?_, ?_, ?_, ?_, ?_⟩
  · show 0 ≤ (analyze_sentence_structure samples).short_sentence_ratio ∧
      (analyze_sentence_structure samples).short_sentence_ratio ≤ 1
    unfold analyze_sentence_structure
    by_cases hse : (allSentences samples).isEmpty
    · rw [if_pos hse]; exact unit_pair_zero
    · rw [if_neg hse]
      dsimp only
      have hne : (allSentences samples).map count_words ≠ [] := by
        simp only [ne_eq, List.map_eq_nil_iff]
        simpa [List.isEmpty_iff] using hse
      exact roundQ_countP_unit _ _ hne
  · show 0 ≤ (analyze_sentence_structure samples).long_sentence_ratio ∧
      (analyze_sentence_structure samples).long_sentence_ratio ≤ 1
    unfold analyze_sentence_structure
    by_cases hse : (allSentences samples).isEmpty
    · rw [if_pos hse]; exact unit_pair_zero
    · rw [if_neg hse]
      dsimp only
      have hne : (allSentences samples).map count_words ≠ [] := by
        simp only [ne_eq, List.map_eq_nil_iff]
        simpa [List.isEmpty_iff] using hse
      exact roundQ_countP_unit _ _ hne
  · show 0 ≤ (analyze_questions_hooks samples).question_ratio ∧
      (analyze_questions_hooks samples).question_ratio ≤ 1
    unfold analyze_questions_hooks
    by_cases hse : (allSentences samples).isEmpty
    · rw [if_pos hse]; exact unit_pair_zero
    · rw [if_neg hse]
      dsimp only
      exact roundQ_countP_unit _ _ (by simpa [List.isEmpty_iff] using hse)
  · show 0 ≤ (analyze_questions_hooks samples).exclamation_ratio ∧
      (analyze_questions_hooks samples).exclamation_ratio ≤ 1
    unfold analyze_questions_hooks
    by_cases hse : (allSentences samples).isEmpty
    · rw [if_pos hse]; exact unit_pair_zero
    · rw [if_neg hse]
      dsimp only
      exact roundQ_countP_unit _ _ (by simpa [List.isEmpty_iff] using hse)
  · show 0 ≤ (analyze_formatting samples).bullet_frequency ∧
      (analyze_formatting samples).bullet_frequency ≤ 1
    unfold analyze_formatting
    by_cases hpe : (allParagraphs samples).isEmpty
    · rw [if_pos hpe]; exact unit_pair_zero
    · rw [if_neg hpe]
      dsimp only
      exact roundQ_countP_max_unit isBulletLine _
  · show 0 ≤ (analyze_vocabulary samples).vocabulary_richness ∧
      (analyze_vocabulary samples).vocabulary_richness ≤ 1
    unfold analyze_vocabulary
    by_cases hwe : (allWords samples).isEmpty
    · rw [if_pos hwe]; exact unit_pair_zero
    · rw [if_neg hwe]
      dsimp only
      refine roundQ_ratio_unit 3 _ _ ?_ ?_
      · exact (List.dedup_sublist _).length_le
      · exact List.length_pos.2 (by simpa [List.isEmpty_iff] using hwe)
  · show 0 ≤ (analyze_vocabulary samples).contraction_ratio ∧
      (analyze_vocabulary samples).contraction_ratio ≤ 1
    unfold analyze_vocabulary
    by_cases hwe : (allWords samples).isEmpty
    · rw [if_pos hwe]; exact unit_pair_zero
    · rw [if_neg hwe]
      dsimp only
      refine roundQ_ratio_unit 3 _ _ ?_ ?_
      · exact le_trans (contraction_count_le_allWords samples) (Nat.le_max_left _ 1)
      · exact Nat.lt_of_lt_of_le Nat.zero_lt_one (Nat.le_max_right _ 1)
  · show 0 ≤ (analyze_rhythm samples).opens_with_short_sentence ∧
      (analyze_rhythm samples).opens_with_short_sentence ≤ 1
    unfold analyze_rhythm
    by_cases hpe : (allParagraphs samples).isEmpty
    · rw [if_pos hpe]; exact unit_pair_zero
    · rw [if_neg hpe]
      dsimp only
      exact roundQ_countP_max_unit _ _

/-! ## Claim C4 — signature-phrase mining -/

/-- Counterexample to C4 as stated: the bigram `"zebra quokka"` appears while
being a substring of the already-accepted trigram phrase
`"zebra quokka lion"` — the source's `phrase not in phrases` test is plain
string (list-member) equality, not a substring test, so the claimed
substring-based skipping does not happen. -/
theorem signature_phrases_substring_counterexample :
    extract_signature_phrases ["zebra quokka lion", "zebra quokka lion"] 10 =
      ["zebra quokka lion", "zebra quokka", "quokka lion"] ∧
    ("zebra quokka".data <:+: "zebra quokka lion".data) := by
  constructor <;> decide

/-- The amended bigram fill as the claim's words describe it: walk the
qualifying bigram phrases in ranked order and append each one that is not
string-equal to an already accepted phrase, until `n` phrases are collected. -/
def fillSkipDup (n : Nat) : List (List Char) → List (List Char) → List (List Char)
  | [], acc => acc
  | p :: rest, acc =>
    if n ≤ acc.length then acc
    else fillSkipDup n rest (if p ∈ acc then acc else acc ++ [p])

/-- The amended C4 claim, spelled declaratively: qualifying trigrams (corpus
count ≥ 2, not all stop-words) in descending frequency, at most half of the
requested top-N; then qualifying bigrams fill the remaining slots in
descending frequency order, a bigram being skipped only when its phrase is
string-equal to an already accepted phrase. -/
def specSignaturePhrases (samples : List String) (top_n : Nat) : List String :=
  let all_bigrams := (samples.map (fun s => extract_ngrams 2 (get_words s.data))).flatten
  let all_trigrams := (samples.map (fun s => extract_ngrams 3 (get_words s.data))).flatten
  let tri := (((most_common 50 (countOcc all_trigrams)).filter
      (fun tc => 2 ≤ tc.2 && !allStopWords tc.1)).map (fun tc => joinWords tc.1)).take (top_n / 2)
  let bigs := ((most_common 50 (countOcc all_bigrams)).filter
      (fun bc => 2 ≤ bc.2 && !allStopWords bc.1)).map (fun bc => joinWords bc.1)
  ((fillSkipDup top_n bigs tri).take top_n).map (fun p => String.mk p)

theorem triLoop_eq_take :
    ∀ (L : List (List (List Char) × Nat)) (k : Nat) (acc : List (List Char)),
      acc.length < k →
      triLoop k L acc =
        acc ++ (((L.filter (fun tc => 2 ≤ tc.2 && !allStopWords tc.1)).map
          (fun tc => joinWords tc.1)).take (k - acc.length)) := by
  intro L
  induction L with
  | nil => intro k acc _; simp [triLoop]
  | cons tc rest ih =>
    intro k acc hlt
    obtain ⟨t, c⟩ := tc
    rw [triLoop]
    simp only [List.filter_cons]
    by_cases hq : (2 ≤ c && !allStopWords t) = true
    · rw [if_pos hq, if_pos hq, List.map_cons]
      dsimp only
      by_cases hfull : k ≤ (acc ++ [joinWords t]).length
      · rw [if_pos hfull]
        have hk : k - acc.length = 1 := by
          rw [List.length_append, List.length_cons, List.length_nil] at hfull
          omega
        rw [hk, List.take_cons (by norm_num)]
        simp
      · rw [if_neg hfull]
        rw [List.length_append, List.length_cons, List.length_nil] at hfull
        rw [ih k (acc ++ [joinWords t]) (by simp; omega)]
        rw [List.take_cons (by omega)]
        simp only [List.length_append, List.length_cons, List.length_nil, List.append_assoc,
          List.cons_append, List.nil_append]
        congr 3
    · rw [if_neg hq, if_neg hq, ih k acc hlt]

theorem fillSkipDup_of_full (n : Nat) (l acc : List (List Char)) (h : n ≤ acc.length) :
    fillSkipDup n l acc = acc := by
  cases l with
  | nil => rfl
  | cons p rest => rw [fillSkipDup, if_pos h]

theorem bigLoop_eq_fill :
    ∀ (L : List (List (List Char) × Nat)) (n : Nat) (acc : List (List Char)),
      acc.length < n →
      pushLoop n bigramPush L acc =
        fillSkipDup n ((L.filter (fun bc => 2 ≤ bc.2 && !allStopWords bc.1)).map
          (fun bc => joinWords bc.1)) acc := by
  intro L
  induction L with
  | nil => intro n acc _; rfl
  | cons bc rest ih =>
    intro n acc hlt
    obtain ⟨bg, c⟩ := bc
    rw [pushLoop]
    simp only [List.filter_cons]
    by_cases hq : (2 ≤ c && !allStopWords bg) = true
    · rw [if_pos hq, List.map_cons, fillSkipDup, if_neg (Nat.not_le_of_lt hlt)]
      by_cases hmem : joinWords bg ∈ acc
      · rw [show bigramPush (bg, c) acc = none by
            unfold bigramPush
            rw [if_pos hq]
            dsimp only
            rw [if_pos hmem]]
        dsimp only
        rw [if_neg (Nat.not_le_of_lt hlt), if_pos hmem]
        exact ih n acc hlt
      · rw [show bigramPush (bg, c) acc = some (joinWords bg) by
            unfold bigramPush
            rw [if_pos hq]
            dsimp only
            rw [if_neg hmem]]
        dsimp only
        rw [if_neg hmem]
        by_cases hfull : n ≤ (acc ++ [joinWords bg]).length
        · rw [if_pos hfull, fillSkipDup_of_full n _ _ hfull]
        · rw [if_neg hfull]
          exact ih n _ (Nat.lt_of_not_le hfull)
    · rw [if_neg hq]
      rw [show bigramPush (bg, c) acc = none by
          unfold bigramPush
          rw [if_neg hq]]
      dsimp only
      rw [if_neg (Nat.not_le_of_lt hlt)]
      exact ih n acc hlt

/-- Claim C4 (corrected): at the pipeline's default `top_n = 10`,
signature-phrase mining selects trigrams with corpus-wide count ≥ 2 that are
not composed entirely of stop-words, ranked by descending frequency, taking
at most half of the requested top-N first; then bigrams satisfying the same
count ≥ 2 and not-all-stopword rule fill the remaining slots in descending
frequency order, and a bigram is skipped only when its phrase is
**string-equal** to an already accepted phrase (not when it is merely a
substring of one). -/
theorem extract_signature_phrases_spec (samples : List String) :
    extract_signature_phrases samples 10 = specSignaturePhrases samples 10 := by
  unfold extract_signature_phrases specSignaturePhrases
  dsimp only
  rw [triLoop_eq_take _ (10 / 2) [] (by norm_num), List.nil_append]
  simp only [List.length_nil, Nat.sub_zero]
  have hlen : ((((most_common 50 (countOcc
      ((samples.map (fun s => extract_ngrams 3 (get_words s.data))).flatten))).filter
      (fun tc => 2 ≤ tc.2 && !allStopWords tc.1)).map
      (fun tc => joinWords tc.1)).take (10 / 2)).length < 10 := by
    have := List.length_take_le (10 / 2) ((((most_common 50 (countOcc
      ((samples.map (fun s => extract_ngrams 3 (get_words s.data))).flatten))).filter
      (fun tc => 2 ≤ tc.2 && !allStopWords tc.1)).map (fun tc => joinWords tc.1)))
    omega
  rw [bigLoop_eq_fill _ 10 _ hlen]

/-! ## Claim C5 — transition-word mining -/

/-- Counterexample to C5 as stated: the corpus `["in fact"]` contains the
fixed-vocabulary phrase `"in fact"` once, yet transition mining returns
nothing — the counts are taken over single word tokens, so a multi-word
candidate can never match. -/
theorem transition_words_multiword_counterexample :
    "in fact" ∈ transition_candidates ∧ extract_transition_words ["in fact"] 10 = [] := by
  constructor <;> decide

/-- The amended C5 claim, spelled declaratively: only the single-token
entries of the fixed candidate vocabulary participate; those occurring at
least once in the corpus are ranked by descending frequency (ties in
candidate-list order) and truncated to top-N. -/
def specTransitionWords (samples : List String) (top_n : Nat) : List String :=
  let words := allWords samples
  let found := (transition_candidates.filter (fun w => decide (' ' ∉ w.data))).filterMap
    (fun w => if 1 ≤ words.count w.data then some (w.data, words.count w.data) else none)
  ((sortCountDesc found).take top_n).map (fun p => String.mk p.1)

theorem tokWordsAux_wordChars :
    ∀ (t cur : List Char), (∀ c ∈ cur, isWordChar c = true) →
      ∀ w ∈ tokWordsAux cur t, ∀ c ∈ w, isWordChar c = true := by
  intro t
  induction t with
  | nil =>
    intro cur hcur w hw c hc
    rw [tokWordsAux] at hw
    by_cases hce : cur.isEmpty
    · rw [if_pos hce] at hw; simp at hw
    · rw [if_neg hce] at hw
      simp at hw
      subst hw
      exact hcur c (List.mem_reverse.1 hc)
  | cons a rest ih =>
    intro cur hcur w hw c hc
    rw [tokWordsAux] at hw
    by_cases ha : isWordChar a = true
    · rw [if_pos ha] at hw
      refine ih (a :: cur) ?_ w hw c hc
      intro c hc
      rcases List.mem_cons.1 hc with hc | hc
      · subst hc; exact ha
      · exact hcur c hc
    · rw [if_neg (by simp [Bool.not_eq_true] at ha ⊢; exact ha)] at hw
      by_cases hce : cur.isEmpty
      · rw [if_pos hce] at hw
        exact ih [] (by simp) w hw c hc
      · rw [if_neg hce] at hw
        rcases List.mem_cons.1 hw with hw | hw
        · subst hw
          exact hcur c (List.mem_reverse.1 hc)
        · exact ih [] (by simp) w hw c hc

theorem allWords_no_space (samples : List String) :
    ∀ w ∈ allWords samples, ' ' ∉ w := by
  intro w hw hsp
  unfold allWords at hw
  rw [List.mem_flatten] at hw
  obtain ⟨l, hl, hwl⟩ := hw
  rw [List.mem_map] at hl
  obtain ⟨s, _, hsl⟩ := hl
  rw [← hsl] at hwl
  unfold get_words at hwl
  rw [List.mem_map] at hwl
  obtain ⟨w', hw', hww⟩ := hwl
  rw [← hww] at hsp
  rw [List.mem_map] at hsp
  obtain ⟨c', hc', hcc⟩ := hsp
  have hwc : isWordChar c' = true :=
    tokWordsAux_wordChars s.data [] (by simp) w' hw' c' hc'
  rw [← isWordChar_lowerChar c', hcc] at hwc
  exact absurd hwc (by decide)

theorem transition_filterMap_eq (words : List (List Char))
    (h : ∀ w ∈ words, ' ' ∉ w) :
    ∀ (cands : List String),
      (cands.filterMap (fun w =>
        if w.data ∈ words ∧ 1 ≤ words.count w.data then some (w.data, words.count w.data)
        else none)) =
      ((cands.filter (fun w => decide (' ' ∉ w.data))).filterMap (fun w =>
        if 1 ≤ words.count w.data then some (w.data, words.count w.data) else none)) := by
  intro cands
  rw [List.filterMap_filter]
  apply List.filterMap_congr
  intro w _
  dsimp only
  by_cases hsp : ' ' ∈ w.data
  · rw [if_neg (show ¬(w.data ∈ words ∧ 1 ≤ words.count w.data) from
        fun hx => h w.data hx.1 hsp),
      if_neg (show ¬(decide (' ' ∉ w.data) = true) by simp [hsp])]
  · rw [if_pos (show decide (' ' ∉ w.data) = true by simp [hsp])]
    by_cases hcnt : 1 ≤ words.count w.data
    · rw [if_pos (show w.data ∈ words ∧ 1 ≤ words.count w.data from
          ⟨List.count_pos_iff.1 hcnt, hcnt⟩), if_pos hcnt]
    · rw [if_neg (show ¬(w.data ∈ words ∧ 1 ≤ words.count w.data) from fun hx => hcnt hx.2),
        if_neg hcnt]

/-- Claim C5 (corrected): transition-word mining returns exactly the
**single-token** entries of the fixed closed candidate vocabulary that occur
at least once in the corpus, ranked by descending frequency (equal
frequencies keep candidate-list order) and truncated to top-N; a word outside
the fixed list is never returned, and a multi-word candidate phrase such as
`"in fact"` is likewise never returned, because occurrences are counted over
single word tokens. -/
theorem extract_transition_words_spec (samples : List String) (top_n : Nat) :
    extract_transition_words samples top_n = specTransitionWords samples top_n := by
  unfold extract_transition_words specTransitionWords
  dsimp only
  rw [transition_filterMap_eq (allWords samples) (allWords_no_space samples)]

/-! ## Claim C7 — sentence-length variation -/

theorem varQ_nonneg (l : List ℕ) : 0 ≤ varQ l := by
  unfold varQ
  apply div_nonneg
  · apply List.sum_nonneg
    intro x hx
    rw [List.mem_map] at hx
    obtain ⟨y, -, hy⟩ := hx
    rw [← hy]
    positivity
  · positivity

/-- The squared rendering of a coefficient-of-variation threshold agrees with
the real-number `sqrt` semantics. -/
theorem cv_sq_iff (v mq c : ℚ) (hm : 1 ≤ mq) (hc : 0 ≤ c) :
    (c ^ 2 * mq ^ 2 < v) ↔
      ((c : ℝ) < Real.sqrt ((v : ℚ) : ℝ) / ((mq : ℚ) : ℝ)) := by
  have hmR : (0 : ℝ) < ((mq : ℚ) : ℝ) := by
    have : (1 : ℝ) ≤ ((mq : ℚ) : ℝ) := by exact_mod_cast hm
    linarith
  have hcR : (0 : ℝ) ≤ (c : ℝ) := by exact_mod_cast hc
  rw [lt_div_iff₀ hmR]
  rw [show ((c : ℝ) * ((mq : ℚ) : ℝ)) = (((c * mq : ℚ) : ℚ) : ℝ) by push_cast; ring]
  rw [Real.lt_sqrt (by positivity)]
  rw [show ((((c * mq : ℚ) : ℚ) : ℝ) ^ 2) = (((c ^ 2 * mq ^ 2 : ℚ) : ℚ) : ℝ) by
    push_cast; ring]
  exact_mod_cast Iff.rfl

theorem mem_dropWhile_of_not (p : Char → Bool) (l : List Char) (c : Char)
    (hc : c ∈ l) (hnp : p c = false) : c ∈ l.dropWhile p := by
  induction l with
  | nil => simp at hc
  | cons a rest ih =>
    by_cases hpa : p a = true
    · rw [List.dropWhile_cons_of_pos hpa]
      rcases List.mem_cons.1 hc with hc | hc
      · subst hc; rw [hpa] at hnp; exact absurd hnp (by simp)
      · exact ih hc
    · rw [List.dropWhile_cons_of_neg hpa]
      exact hc

theorem mem_strip_of_not (l : List Char) (c : Char)
    (hc : c ∈ l) (hns : isSpaceChar c = false) : c ∈ stripChars l := by
  unfold stripChars lstripChars rstripChars
  apply mem_dropWhile_of_not _ _ _ _ hns
  rw [List.mem_reverse]
  apply mem_dropWhile_of_not _ _ _ _ hns
  rw [List.mem_reverse]
  exact hc

theorem lastNlIdx_le_length :
    ∀ (l : List Char) (k : ℕ), lastNlIdx l = some k → k + 1 ≤ l.length := by
  intro l
  induction l with
  | nil => intro k h; simp [lastNlIdx] at h
  | cons a rest ih =>
    intro k h
    rw [lastNlIdx] at h
    cases hr : lastNlIdx rest with
    | some k2 =>
      rw [hr] at h
      simp at h
      have := ih k2 hr
      simp
      omega
    | none =>
      rw [hr] at h
      by_cases ha : a = '\n'
      · rw [if_pos ha] at h
        simp at h
        simp
        omega
      · rw [if_neg ha] at h
        simp at h

theorem paraSplitAux_covers :
    ∀ (fuel : ℕ) (cur rest : List Char) (c : Char), isSpaceChar c = false →
      (c ∈ cur ∨ c ∈ rest) → ∃ p ∈ paraSplitAux fuel cur rest, c ∈ p := by
  intro fuel
  induction fuel with
  | zero =>
    intro cur rest c _ hc
    refine ⟨cur.reverse ++ rest, by simp [paraSplitAux], ?_⟩
    rcases hc with hc | hc
    · exact List.mem_append.2 (Or.inl (List.mem_reverse.2 hc))
    · exact List.mem_append.2 (Or.inr hc)
  | succ fuel ih =>
    intro cur rest c hns hc
    cases rest with
    | nil =>
      rcases hc with hc | hc
      · exact ⟨cur.reverse, by simp [paraSplitAux], List.mem_reverse.2 hc⟩
      · simp at hc
    | cons a rest' =>
      rw [paraSplitAux]
      by_cases han : a = '\n'
      · rw [if_pos han]
        have hcnl : c ≠ '\n' := by
          intro he; subst he; exact absurd hns (by simp [isSpaceChar])
        have hca : c ≠ a := by rw [han]; exact hcnl
        cases hnl : lastNlIdx (rest'.takeWhile isSpaceChar) with
        | some k =>
          rcases hc with hc | hc
          · exact ⟨cur.reverse, List.mem_cons_self _ _, List.mem_reverse.2 hc⟩
          · rcases List.mem_cons.1 hc with hc | hc
            · exact absurd hc hca
            · -- c is a non-space character of rest'; the k+1 dropped characters
              -- are a prefix of the maximal whitespace run, so c survives the drop
              have hcdrop : c ∈ rest'.drop (k + 1) := by
                by_contra hnd
                have htw : c ∈ rest'.take (k + 1) := by
                  have hsplit := List.take_append_drop (k + 1) rest'
                  rw [← hsplit] at hc
                  rcases List.mem_append.1 hc with h | h
                  · exact h
                  · exact absurd h hnd
                have hklen : k + 1 ≤ (rest'.takeWhile isSpaceChar).length :=
                  lastNlIdx_le_length _ k hnl
                have htake : rest'.take (k + 1) = (rest'.takeWhile isSpaceChar).take (k + 1) := by
                  conv_lhs => rw [← List.takeWhile_append_dropWhile (p := isSpaceChar)
                    (l := rest')]
                  exact List.take_append_of_le_length hklen
                rw [htake] at htw
                have hcsp : isSpaceChar c = true :=
                  List.mem_takeWhile_imp (List.mem_of_mem_take htw)
                rw [hcsp] at hns
                exact absurd hns (by simp)
              obtain ⟨p, hp, hcp⟩ := ih [] (rest'.drop (k + 1)) c hns (Or.inr hcdrop)
              exact ⟨p, List.mem_cons_of_mem _ hp, hcp⟩
        | none =>
          cases hhd : (rest'.dropWhile isSpaceChar).head? with
          | some b =>
            dsimp only
            by_cases hbul : isBulletChar b
            · rw [if_pos hbul]
              rcases hc with hc | hc
              · exact ⟨cur.reverse, List.mem_cons_self _ _, List.mem_reverse.2 hc⟩
              · rcases List.mem_cons.1 hc with hc | hc
                · exact absurd hc hca
                · obtain ⟨p, hp, hcp⟩ := ih [] rest' c hns (Or.inr hc)
                  exact ⟨p, List.mem_cons_of_mem _ hp, hcp⟩
            · rw [if_neg hbul]
              rcases hc with hc | hc
              · exact ih ('\n' :: cur) rest' c hns (Or.inl (List.mem_cons_of_mem _ hc))
              · rcases List.mem_cons.1 hc with hc | hc
                · exact absurd hc hca
                · exact ih ('\n' :: cur) rest' c hns (Or.inr hc)
          | none =>
            rcases hc with hc | hc
            · exact ih ('\n' :: cur) rest' c hns (Or.inl (List.mem_cons_of_mem _ hc))
            · rcases List.mem_cons.1 hc with hc | hc
              · exact absurd hc hca
              · exact ih ('\n' :: cur) rest' c hns (Or.inr hc)
      · rw [if_neg han]
        rcases hc with hc | hc
        · exact ih (a :: cur) rest' c hns (Or.inl (List.mem_cons_of_mem _ hc))
        · rcases List.mem_cons.1 hc with hc | hc
          · subst hc
            exact ih (c :: cur) rest' c hns (Or.inl (List.mem_cons_self _ _))
          · exact ih (a :: cur) rest' c hns (Or.inr hc)

theorem sample_allSpace_of_paragraphs_nil (t : List Char) (h : split_paragraphs t = []) :
    ∀ c ∈ t, isSpaceChar c = true := by
  intro c hc
  by_contra hns
  rw [Bool.not_eq_true] at hns
  obtain ⟨p, hp, hcp⟩ := paraSplitAux_covers (t.length + 1) [] t c hns (Or.inr hc)
  have hmem : stripChars p ∈ split_paragraphs t := by
    unfold split_paragraphs
    rw [List.mem_filter]
    refine ⟨List.mem_map_of_mem _ hp, ?_⟩
    have hms := mem_strip_of_not p c hcp hns
    simp only [Bool.not_eq_true']
    rw [← Bool.not_eq_true]
    intro hq
    rw [List.isEmpty_iff] at hq
    rw [hq] at hms
    simp at hms
  rw [h] at hmem
  simp at hmem

theorem allSentences_nil_of_paragraphs_nil (samples : List String)
    (h : allParagraphs samples = []) : allSentences samples = [] := by
  unfold allParagraphs at h
  rw [List.flatten_eq_nil_iff] at h
  unfold allSentences
  rw [List.flatten_eq_nil_iff]
  intro l hl
  rw [List.mem_map] at hl
  obtain ⟨s, hs, hls⟩ := hl
  have hpnil : split_paragraphs s.data = [] :=
    h _ (List.mem_map_of_mem _ hs)
  rw [← hls]
  exact split_sentences_allSpace _ (sample_allSpace_of_paragraphs_nil _ hpnil)

/-- Claim C7 (corrected): with at least 2 sentences,
`sentence_length_variation` is classified from the coefficient of variation
computed as `std / max(mean, 1)` — **not** `std / mean` — of the per-sentence
word counts: "high" above 0.7, "medium" above 0.4, otherwise "low"; with
fewer than 2 sentences it is "low".  (The two coincide whenever the mean is
at least 1; they differ on corpora whose mean sentence word count is below
1.) -/
theorem sentence_length_variation_spec (samples : List String) :
    (analyze samples).metrics.sentence_length_variation =
      (if 2 ≤ (allSentences samples).length then
        (if (7 : ℝ)/10 <
            Real.sqrt ((varQ ((allSentences samples).map count_words) : ℚ) : ℝ) /
              (max ((meanQ ((allSentences samples).map count_words) : ℚ) : ℝ) 1) then "high"
         else if (2 : ℝ)/5 <
            Real.sqrt ((varQ ((allSentences samples).map count_words) : ℚ) : ℝ) /
              (max ((meanQ ((allSentences samples).map count_words) : ℚ) : ℝ) 1) then "medium"
         else "low")
      else "low") := by
  have hcast : ∀ L : List ℕ, ((max (meanQ L) 1 : ℚ) : ℝ) = max ((meanQ L : ℚ) : ℝ) 1 := by
    intro L
    push_cast
    ring
  show (analyze_rhythm samples).sentence_length_variation = _
  unfold analyze_rhythm
  by_cases hpe : (allParagraphs samples).isEmpty
  · rw [if_pos hpe]
    have hsn : allSentences samples = [] :=
      allSentences_nil_of_paragraphs_nil samples (by rwa [← List.isEmpty_iff])
    rw [hsn]
    norm_num
  · rw [if_neg hpe]
    dsimp only
    by_cases h2 : 2 ≤ (allSentences samples).length
    · rw [if_pos h2, if_pos h2]
      set L := (allSentences samples).map count_words with hL
      rw [show (if meanQ L ≤ 1 then (1 : ℚ) else meanQ L) = max (meanQ L) 1 from
        (max_def (meanQ L) 1).symm]
      have hm : (1 : ℚ) ≤ max (meanQ L) 1 := le_max_right _ 1
      have hiff1 := cv_sq_iff (varQ L) (max (meanQ L) 1) (7/10) hm (by norm_num)
      have hiff2 := cv_sq_iff (varQ L) (max (meanQ L) 1) (2/5) hm (by norm_num)
      rw [hcast L] at hiff1 hiff2
      have he1 : ((7 : ℚ)/10) ^ 2 * (max (meanQ L) 1) ^ 2 = 49/100 * (max (meanQ L) 1) ^ 2 := by
        norm_num
      have he2 : ((2 : ℚ)/5) ^ 2 * (max (meanQ L) 1) ^ 2 = 4/25 * (max (meanQ L) 1) ^ 2 := by
        norm_num
      rw [he1] at hiff1
      rw [he2] at hiff2
      rw [show (((7 : ℚ)/10 : ℚ) : ℝ) = (7 : ℝ)/10 by norm_num] at hiff1
      rw [show (((2 : ℚ)/5 : ℚ) : ℝ) = (2 : ℝ)/5 by norm_num] at hiff2
      by_cases hc1 : (49 : ℚ)/100 * (max (meanQ L) 1) ^ 2 < varQ L
      · rw [if_pos hc1, if_pos (hiff1.1 hc1)]
      · rw [if_neg hc1, if_neg (fun hx => hc1 (hiff1.2 hx))]
        by_cases hc2 : (4 : ℚ)/25 * (max (meanQ L) 1) ^ 2 < varQ L
        · rw [if_pos hc2, if_pos (hiff2.1 hc2)]
        · rw [if_neg hc2, if_neg (fun hx => hc2 (hiff2.2 hx))]
    · rw [if_neg h2, if_neg h2]

/-- Counterexample to C7 as stated: the corpus `["?! \"...\" Hello."]` splits
into 2 sentences of word counts `[0, 1]`, so std/mean `= (1/2)/(1/2) = 1 >
0.7` and the claim demands "high"; the code divides by `max(mean, 1) = 1`
instead, getting `cv = 1/2` and classifying "medium". -/
theorem rhythm_cv_counterexample :
    (allSentences ["?! \"...\" Hello."]).length = 2 ∧
    ((7 : ℝ)/10 <
      Real.sqrt ((varQ ((allSentences ["?! \"...\" Hello."]).map count_words) : ℚ) : ℝ) /
        ((meanQ ((allSentences ["?! \"...\" Hello."]).map count_words) : ℚ) : ℝ)) ∧
    (analyze ["?! \"...\" Hello."]).metrics.sentence_length_variation = "medium" := by
  have hL : (allSentences ["?! \"...\" Hello."]).map count_words = [0, 1] := by decide
  have hm : meanQ [0, 1] = 1/2 := by
    unfold meanQ
    norm_num
  have hv : varQ [0, 1] = 1/4 := by
    unfold varQ
    rw [hm]
    norm_num
  refine ⟨by decide, ?_, ?_⟩
  · rw [hL, hv, hm]
    have h4 : (((1 : ℚ)/4 : ℚ) : ℝ) = (1/2 : ℝ) ^ 2 := by norm_num
    rw [h4, Real.sqrt_sq (by norm_num)]
    norm_num
  · show (analyze_rhythm ["?! \"...\" Hello."]).sentence_length_variation = "medium"
    unfold analyze_rhythm
    rw [if_neg (show ¬((allParagraphs ["?! \"...\" Hello."]).isEmpty = true) by decide)]
    dsimp only
    rw [if_pos (show 2 ≤ (allSentences ["?! \"...\" Hello."]).length by decide)]
    rw [hL, hm, hv]
    norm_num

/-! ## Claim C10 — the generated prose fields -/

theorem string_data_append (a b : String) : (a ++ b).data = a.data ++ b.data := rfl

theorem string_append_dot_last (s : String) : (s ++ ".").data.getLast? = some '.' := by
  rw [string_data_append, List.getLast?_append_of_ne_nil _ (by decide)]
  rfl

theorem string_ne_empty_of_last_dot (s : String) (h : s.data.getLast? = some '.') :
    s ≠ "" := by
  intro he
  rw [he] at h
  simp at h

/-- Claim C10: the two generated prose fields are never empty — the
formatting description always opens with a paragraph-style clause followed by
a bullet-usage clause, the style summary always opens with a sentence-length
clause followed by a variation clause — and both returned strings end with a
period. -/
theorem prose_fields_structure (samples : List String) :
    (∃ p b rest,
      p ∈ ["Uses very short paragraphs (1-2 sentences)",
           "Uses moderate-length paragraphs (3-4 sentences)",
           "Uses longer paragraphs (5+ sentences)"] ∧
      b ∈ ["Heavy use of bullet points and lists", "Occasional use of bullet points",
           "Rarely or never uses bullet points"] ∧
      (analyze samples).formatting_style = String.intercalate ". " (p :: b :: rest) ++ ".") ∧
    (∃ l v rest2,
      l ∈ ["This writer uses notably short, punchy sentences",
           "This writer uses moderate-length sentences",
           "This writer tends toward longer, more detailed sentences"] ∧
      v ∈ ["with high variation between short and long sentences, creating a dynamic rhythm",
           "with moderate variation in sentence length",
           "with consistent sentence lengths throughout"] ∧
      (analyze samples).raw_style_summary = String.intercalate ". " (l :: v :: rest2) ++ ".") ∧
    (analyze samples).formatting_style ≠ "" ∧
    (analyze samples).raw_style_summary ≠ "" ∧
    (analyze samples).formatting_style.data.getLast? = some '.' ∧
    (analyze samples).raw_style_summary.data.getLast? = some '.' := by
  have hfmtlast : (describe_formatting_style samples).data.getLast? = some '.' := by
    unfold describe_formatting_style
    exact string_append_dot_last _
  have hsumlast : (generate_style_summary samples).data.getLast? = some '.' := by
    unfold generate_style_summary
    exact string_append_dot_last _
  refine ⟨?_, ?_, string_ne_empty_of_last_dot _ hfmtlast,
    string_ne_empty_of_last_dot _ hsumlast, hfmtlast, hsumlast⟩
  · exact ⟨_, _,
      (if (0.3 : ℚ) < (analyze_sentence_structure samples).short_sentence_ratio then
        ["Frequently uses punchy, short sentences for emphasis"] else []) ++
      (if (0.2 : ℚ) < (analyze_sentence_structure samples).long_sentence_ratio then
        ["Includes longer, detailed sentences"] else []),
      by split_ifs <;> simp, by split_ifs <;> simp, rfl⟩
  · exact ⟨_, _,
      (if (0.15 : ℚ) < (analyze_questions_hooks samples).question_ratio then
        ["They frequently use rhetorical questions to engage readers"]
       else if (0.05 : ℚ) < (analyze_questions_hooks samples).question_ratio then
        ["They occasionally use questions"] else []) ++
      (if (0.1 : ℚ) < (analyze_questions_hooks samples).exclamation_ratio then
        ["Exclamation marks are used liberally for emphasis and energy"] else []) ++
      (if (0.6 : ℚ) < (analyze_vocabulary samples).vocabulary_richness then
        ["The vocabulary is rich and varied"]
       else if (analyze_vocabulary samples).vocabulary_richness < (0.4 : ℚ) then
        ["The vocabulary is focused and repetitive (which creates familiarity)"] else []) ++
      (if (0.03 : ℚ) < (analyze_vocabulary samples).contraction_ratio then
        ["Heavy use of contractions gives a conversational, informal tone"]
       else if (analyze_vocabulary samples).contraction_ratio < (0.01 : ℚ) then
        ["Minimal contractions suggest a more formal tone"] else []) ++
      (if (analyze_formatting samples).uses_bullet_points then
        ["Bullet points and lists are part of the formatting style"] else []) ++
      (if (0.5 : ℚ) < (analyze_punctuation_emoji samples).emoji_frequency then
        ["Emojis are used frequently as part of the communication style"]
       else if (0 : ℚ) < (analyze_punctuation_emoji samples).emoji_frequency then
        ["Emojis are used sparingly"] else []) ++
      (if (0.5 : ℚ) < (analyze_punctuation_emoji samples).dash_frequency then
        ["Dashes are used frequently for emphasis or asides"] else []) ++
      (if (0.5 : ℚ) < (analyze_rhythm samples).opens_with_short_sentence then
        ["Paragraphs often open with a short, punchy statement"] else []),
      by split_ifs <;> simp, by split_ifs <;> simp, rfl⟩
